import Mathlib

/-!
# Verification of the rpio-cli remote-target discovery/resolution pipeline

Shallow embedding of the Rust sources (`src/main.rs`, `src/remote_app.rs`,
`src/fzf.rs`, `src/gum_wrapper.rs`) into Lean 4.  Strings are modelled as
`List Char`; external process invocations (ssh, fzf, gum) are modelled by
explicit oracle arguments carrying the process result (`?`-propagated spawn
failures as `Except.error`, completed processes as a `ProcResult` with exit
status and captured stdout).
-/

/-- Rust `String` / `&str`, modelled as a list of characters. -/
abbrev Str := List Char

/-! ## Basic string helpers mirroring Rust std behaviour -/

/-- Unicode `White_Space` property, as used by Rust `char::is_whitespace`. -/
def isUniWhitespace (c : Char) : Bool :=
  c = ' ' || (0x09 ≤ c.toNat && c.toNat ≤ 0x0D) || c = '\x85' ||
  c = '\xA0' || c.toNat = 0x1680 ||
  (0x2000 ≤ c.toNat && c.toNat ≤ 0x200A) ||
  c.toNat = 0x2028 || c.toNat = 0x2029 || c.toNat = 0x202F ||
  c.toNat = 0x205F || c.toNat = 0x3000

/-- Rust `str::trim`: strip Unicode whitespace from both ends. -/
def rustTrim (s : Str) : Str :=
  ((s.dropWhile isUniWhitespace).reverse.dropWhile isUniWhitespace).reverse

/-- Drop a single trailing `\r`, as Rust `str::lines` does per line. -/
def dropTrailingCr (l : Str) : Str :=
  match l.reverse with
  | '\r' :: r => r.reverse
  | _ => l

/-- Worker for `rustLines`: `cur` is the current line accumulated in reverse. -/
def rustLinesGo (cur : Str) : Str → List Str
  | [] => if cur.isEmpty then [] else [dropTrailingCr cur.reverse]
  | c :: rest =>
    if c = '\n' then dropTrailingCr cur.reverse :: rustLinesGo [] rest
    else rustLinesGo (c :: cur) rest

/-- Rust `str::lines`: split on `\n`, dropping one trailing `\r` per line,
with no trailing empty line for input ending in a newline. -/
def rustLines (s : Str) : List Str := rustLinesGo [] s

/-- Rust `str::split_whitespace`: maximal runs of non-whitespace characters. -/
def splitWhitespace (s : Str) : List Str :=
  let rec go (cur : Str) : Str → List Str
    | [] => if cur.isEmpty then [] else [cur.reverse]
    | c :: rest =>
      if isUniWhitespace c then
        if cur.isEmpty then go [] rest else cur.reverse :: go [] rest
      else go (c :: cur) rest
  go [] s

/-- Core of `starts_with`: does the second list start with the first? -/
def startsWithChars : Str → Str → Bool
  | [], _ => true
  | _ :: _, [] => false
  | p :: ps, c :: cs => p = c && startsWithChars ps cs

/-- Rust `str::starts_with` for a string prefix. -/
def rustStartsWith (s pre : Str) : Bool := startsWithChars pre s

/-- Rust `str::split_once(c)`: split at the first occurrence of `c`. -/
def splitOnce (c : Char) : Str → Option (Str × Str)
  | [] => none
  | x :: rest =>
    if x = c then some ([], rest)
    else (splitOnce c rest).map (fun p => (x :: p.1, p.2))

/-! ## ANSI styling (ansi_term) and its removal (`strip_ansi`) -/

/-- `ansi_term` dimmed styling: `Style::new().dimmed().paint(s)` renders as
`ESC [ 2 m`, the payload, then the reset `ESC [ 0 m`. -/
def dimPaint (s : Str) : Str :=
  '\x1b' :: '[' :: '2' :: 'm' :: (s ++ ['\x1b', '[', '0', 'm'])

/-- Characters matched by the `[0-9;]` class of the strip regex. -/
def isCsiBody (c : Char) : Bool := c.isDigit || c = ';'

/-- After the maximal `[0-9;]` run, the regex requires a literal `m`. -/
def afterBody : Str → Option Str
  | [] => none
  | d :: ds => if d = 'm' then some ds else none

/-- Attempt to match the tail of the regex `\x1b\[[0-9;]*m` immediately after
an ESC character: a `[`, a maximal run of `[0-9;]`, then `m`.  Returns the
remainder after the match. -/
def matchAnsi : Str → Option Str
  | [] => none
  | x :: xs => if x = '[' then afterBody (xs.dropWhile isCsiBody) else none

/-- Fueled worker for `stripAnsi`; fuel bounds the number of characters
consumed, so `fuel = s.length` always suffices. -/
def stripAnsiFuel : Nat → Str → Str
  | 0, s => s
  | _ + 1, [] => []
  | fuel + 1, c :: rest =>
    if c = '\x1b' then
      match matchAnsi rest with
      | some rest' => stripAnsiFuel fuel rest'
      | none => c :: stripAnsiFuel fuel rest
    else c :: stripAnsiFuel fuel rest

/-- `strip_ansi` from `main.rs`: `Regex::new("\\x1b\\[[0-9;]*m")` with
`replace_all(s, "")`, removing every ANSI SGR escape sequence. -/
def stripAnsi (s : Str) : Str := stripAnsiFuel s.length s

/-! ## Core data model (`main.rs`, `remote_app.rs`) -/

/-- `anyhow::Error` as produced by the code paths we model: `anyhow!`/`bail!`
message errors, `?`-propagated process-spawn (io) errors, and `?`-propagated
number-parse errors. -/
inductive Err where
  | fromMsg (msg : Str)
  | spawnFail (e : Str)
  | parseFail
deriving DecidableEq, Repr

/-- `RemoteApp` (`remote_app.rs`). -/
structure RemoteApp where
  host : Str
  app_name : Str
deriving DecidableEq, Repr

/-- `DataFolder` (`main.rs`). -/
structure DataFolder where
  path : Str
  container : Option Str
deriving DecidableEq, Repr

/-- `ServerEntry` (`main.rs`); `last_updated` is a Unix timestamp (`i64`). -/
structure ServerEntry where
  last_updated : Int
  data_folders : List DataFolder
deriving DecidableEq, Repr

/-- `ServersCache` (`main.rs`): a `BTreeMap<String, ServerEntry>`, modelled as
an association list kept sorted by key (lexicographic character order, which
agrees with Rust's byte order on UTF-8). -/
structure ServersCache where
  servers : List (Str × ServerEntry)
deriving DecidableEq, Repr

/-- Lexicographic strict order on strings, matching `Ord` on Rust `String`. -/
def strLt : Str → Str → Bool
  | [], [] => false
  | [], _ :: _ => true
  | _ :: _, [] => false
  | a :: s, b :: t => if a = b then strLt s t else decide (a < b)

/-- Key-sortedness invariant of the `BTreeMap` model. -/
def sortedByKey (l : List (Str × ServerEntry)) : Prop :=
  l.Chain' (fun a b => strLt a.1 b.1)

/-! ## Target Selector (`build_fzf_lines`, `parse_selection`) -/

/-- `build_fzf_lines` (`main.rs` 161-174): one line
`format!("{}:{}", folder.path, dim.paint(host))` per (host, folder) pair, in
map iteration order. -/
def buildFzfLines (cache : ServersCache) : List Str :=
  cache.servers.flatMap fun hs =>
    hs.2.data_folders.map fun folder => folder.path ++ ':' :: dimPaint hs.1

/-- `RemoteApp::from_str` (`remote_app.rs` 61-74): split on the first `:`,
left side is `app_name`, right side is `host`. -/
def RemoteApp.fromStr (s : Str) : Except Err RemoteApp :=
  match splitOnce ':' s with
  | none => .error (.fromMsg ("Invalid format".data))
  | some (app_name, host) => .ok ⟨host, app_name⟩

/-- `parse_selection` (`main.rs` 176-180): strip styling, then
`RemoteApp::from_str(...).ok()`. -/
def parseSelection (selected : Str) : Option RemoteApp :=
  (RemoteApp.fromStr (stripAnsi selected)).toOption

/-! ## External process model

An external command (`ssh`, `fzf`, `gum`) either fails to launch — Rust
`Command::output()`/`spawn()` returning `Err(io::Error)`, propagated by `?` —
or runs to completion with an exit status and captured stdout (bytes modelled
as characters; `from_utf8_lossy` is the identity in this model). -/

/-- Outcome of a completed external process. -/
structure ProcResult where
  success : Bool
  stdout : Str
deriving DecidableEq, Repr

/-- Outcome of launching an external process. -/
abbrev ProcOutcome := Except Str ProcResult

/-! ## Interactive wrappers (`fzf.rs`, `gum_wrapper.rs`) -/

/-- `run_fzf` (`fzf.rs` 4-31): spawn failure propagates as an error; an
unsuccessful exit yields `Ok(None)`; a successful exit yields the trimmed
stdout, with the empty selection mapped to `Ok(None)`. -/
def runFzf (outcome : ProcOutcome) : Except Err (Option Str) :=
  match outcome with
  | .error e => .error (.spawnFail e)
  | .ok output =>
    if output.success then
      let selected := rustTrim output.stdout
      if selected.isEmpty then .ok none else .ok (some selected)
    else .ok none

/-- Rust `u32::from_str`: optional leading `+`, then one or more ASCII
digits, rejecting values above `u32::MAX`. -/
def parseU32 (s : Str) : Option Nat :=
  let digits := match s with
    | '+' :: rest => rest
    | _ => s
  if digits.isEmpty || !digits.all (fun c => c.isDigit) then none
  else
    let v := digits.foldl (fun acc c => acc * 10 + (c.toNat - '0'.toNat)) 0
    if v < 2 ^ 32 then some v else none

/-- `prompt_number` (`gum_wrapper.rs` 4-21): spawn failure propagates; an
unsuccessful exit is `bail!("gum was cancelled")`; otherwise the trimmed
stdout is parsed as a `u32`, with a parse failure propagated by `?`. -/
def promptNumber (outcome : ProcOutcome) : Except Err Nat :=
  match outcome with
  | .error e => .error (.spawnFail e)
  | .ok output =>
    if !output.success then .error (.fromMsg "gum was cancelled".data)
    else
      match parseU32 (rustTrim output.stdout) with
      | some n => .ok n
      | none => .error .parseFail

/-! ## Remote Target (`remote_app.rs`) -/

/-- `RemoteApp::fetch_containers` (`remote_app.rs` 18-38): a spawn failure is
propagated by `?`; a completed `ssh` command has its exit status ignored and
its stdout split into lines. -/
def fetchContainers (outcome : ProcOutcome) : Except Err (List Str) :=
  match outcome with
  | .error e => .error (.spawnFail e)
  | .ok output => .ok (rustLines output.stdout)

/-! ## Operation Resolver (`ApplicationCommand::build`, `main.rs` 96-131) -/

/-- CLI-level application command (`cli.rs` 32-47): the Tunnel parameters are
all optional before resolution. -/
inductive ApplicationCommandCli where
  | sshSession
  | tunnel (container_name : Option Str) (host_port : Option Nat)
      (remote_port : Option Nat)
  | retrieveBackup
  | retrieveFiles
  | hostedUrl
deriving DecidableEq, Repr

/-- Resolved application command (`main.rs` 47-58). -/
inductive ApplicationCommand where
  | sshSession
  | tunnel (container_name : Str) (host_port : Nat) (remote_port : Nat)
  | retrieveBackup
  | retrieveFiles
  | hostedUrl
deriving DecidableEq, Repr

/-- External-process outcomes consumed by `ApplicationCommand::build`. -/
structure TunnelOracle where
  fetchContainersOutcome : ProcOutcome
  fzfContainer : ProcOutcome
  gumRemotePort : ProcOutcome
  gumHostPort : ProcOutcome
deriving Repr

/-- `ApplicationCommand::build` (`main.rs` 96-131).  The second component of
the result records whether `fetch_containers` was invoked (the remote
container enumeration). -/
def ApplicationCommand.build (value : ApplicationCommandCli) (o : TunnelOracle) :
    Except Err ApplicationCommand × Bool :=
  match value with
  | .hostedUrl => (.ok .hostedUrl, false)
  | .retrieveBackup => (.ok .retrieveBackup, false)
  | .retrieveFiles => (.ok .retrieveFiles, false)
  | .sshSession => (.ok .sshSession, false)
  | .tunnel container_name host_port remote_port =>
    let containerStep : Except Err Str × Bool :=
      match container_name with
      | some c => (.ok c, false)
      | none =>
        (match fetchContainers o.fetchContainersOutcome with
         | .error e => .error e
         | .ok _containers =>
           match runFzf o.fzfContainer with
           | .error e => .error e
           | .ok none => .error (.fromMsg "Could not find a container".data)
           | .ok (some c) => .ok c,
         true)
    match containerStep with
    | (.error e, q) => (.error e, q)
    | (.ok container, q) =>
      match (match remote_port with
             | some p => Except.ok p
             | none => promptNumber o.gumRemotePort) with
      | .error e => (.error e, q)
      | .ok rp =>
        match (match host_port with
               | some p => Except.ok p
               | none => promptNumber o.gumHostPort) with
        | .error e => (.error e, q)
        | .ok hp => (.ok (.tunnel container hp rp), q)

/-! ## Discovery Agent (`fetch_data_folders`, `read_ssh_hosts`,
`fetch_servers_cache`; `main.rs` 282-305, 344-361, 404-422) -/

/-- `fetch_data_folders` (`main.rs` 344-361): only a successfully completed
remote listing contributes folders (non-blank stdout lines); a spawn failure
or a non-zero exit yields the empty list. -/
def fetchDataFolders (outcome : ProcOutcome) : List DataFolder :=
  match outcome with
  | .ok out =>
    if out.success then
      ((rustLines out.stdout).filter fun l => !(rustTrim l).isEmpty).map
        fun folder => ⟨folder, none⟩
    else []
  | .error _ => []

/-- The per-line extraction of `read_ssh_hosts` (`main.rs` 404-422): trim the
line; if it starts with the five characters `Host ` take the second
whitespace-delimited token. -/
def hostOfLine (line : Str) : Option Str :=
  let t := rustTrim line
  if rustStartsWith t "Host ".data then (splitWhitespace t)[1]? else none

/-- `read_ssh_hosts` applied to the contents of `~/.ssh/config`. -/
def readSshHostsFromContents (contents : Str) : List Str :=
  (rustLines contents).filterMap hostOfLine

/-- `read_ssh_hosts` (`main.rs` 404-422); reading the config file can fail
(`fs::read_to_string(path)?`). -/
def readSshHosts (fileRead : Except Str Str) : Except Err (List Str) :=
  match fileRead with
  | .error e => .error (.spawnFail e)
  | .ok contents => .ok (readSshHostsFromContents contents)

/-- `BTreeMap::insert`, on the sorted-association-list model. -/
def btInsert (k : Str) (v : ServerEntry) :
    List (Str × ServerEntry) → List (Str × ServerEntry)
  | [] => [(k, v)]
  | (k', v') :: rest =>
    if strLt k k' then (k, v) :: (k', v') :: rest
    else if k = k' then (k, v) :: rest
    else (k', v') :: btInsert k v rest

/-- `BTreeMap` lookup, on the association-list model. -/
def btLookup (k : Str) : List (Str × ServerEntry) → Option ServerEntry
  | [] => none
  | (k', v') :: rest => if k = k' then some v' else btLookup k rest

/-- The probe loop of `fetch_servers_cache` (`main.rs` 287-302): empty host
names are skipped; every other host is probed in order.  `probe i` / `now i`
give the ssh listing outcome and `Utc::now().timestamp()` of the `i`-th probe
performed.  Also returns the ordered list of hosts actually probed. -/
def runDiscovery (probe : Nat → ProcOutcome) (now : Nat → Int) :
    List Str → Nat → List (Str × ServerEntry) →
      List (Str × ServerEntry) × List Str
  | [], _, servers => (servers, [])
  | host :: rest, i, servers =>
    if host.isEmpty then runDiscovery probe now rest i servers
    else
      let folders := fetchDataFolders (probe i)
      let next := runDiscovery probe now rest (i + 1)
        (btInsert host ⟨now i, folders⟩ servers)
      (next.1, host :: next.2)

/-- `fetch_servers_cache` (`main.rs` 282-305): read the ssh hosts, drop the
ignored ones, then run the probe loop starting from an empty map.  Also
returns the ordered probe trace. -/
def fetchServersCache (sshConfig : Except Str Str) (ignoreHosts : List Str)
    (probe : Nat → ProcOutcome) (now : Nat → Int) :
    Except Err (ServersCache × List Str) :=
  match readSshHosts sshConfig with
  | .error e => .error e
  | .ok hosts0 =>
    let hosts := hosts0.filter fun h => !ignoreHosts.contains h
    let r := runDiscovery probe now hosts 0 []
    .ok (⟨r.1⟩, r.2)

/-! ## Selection pipeline (`prompt_remote_app`, `Commands::build`, `main`;
`main.rs` 60-94, 197-248, 569-601) -/

/-- `prompt_remote_app` (`main.rs` 197-213), given the cache already loaded:
an empty candidate list short-circuits to `Ok(None)` without running fzf;
otherwise the fzf selection (if any) is parsed. -/
def promptRemoteApp (cache : ServersCache) (fzfOutcome : ProcOutcome) :
    Except Err (Option RemoteApp) :=
  let lines := buildFzfLines cache
  if lines.isEmpty then .ok none
  else
    match runFzf fzfOutcome with
    | .error e => .error e
    | .ok none => .ok none
    | .ok (some selected) => .ok (parseSelection selected)

/-- `load_or_fetch_servers_cache` (`main.rs` 238-248) at snapshot
granularity: `persisted` is what `load_servers_cache` would return when the
snapshot file exists (`none` when it does not); on the fetch path the fetched
cache is also written back.  Returns (cache used, snapshot on disk after). -/
def loadOrFetch (persisted : Option ServersCache)
    (fetched : Except Err ServersCache) :
    Except Err (ServersCache × Option ServersCache) :=
  match persisted with
  | some c => .ok (c, some c)
  | none =>
    match fetched with
    | .error e => .error e
    | .ok c => .ok (c, some c)

/-- strum `EnumString` parse of an application command name
(kebab-case; the Tunnel variant gets defaulted `None` fields). -/
def parseAppCommandCli (s : Str) : Option ApplicationCommandCli :=
  if s = "ssh-session".data then some .sshSession
  else if s = "tunnel".data then some (.tunnel none none none)
  else if s = "retrieve-backup".data then some .retrieveBackup
  else if s = "retrieve-files".data then some .retrieveFiles
  else if s = "hosted-url".data then some .hostedUrl
  else none

/-- `choose_application_command` (`main.rs` 215-236): a cancelled gum chooser
is `bail!("gum was cancelled")`; otherwise the trimmed stdout is parsed. -/
def chooseApplicationCommand (outcome : ProcOutcome) :
    Except Err ApplicationCommandCli :=
  match outcome with
  | .error e => .error (.spawnFail e)
  | .ok out =>
    if !out.success then .error (.fromMsg "gum was cancelled".data)
    else
      match parseAppCommandCli (rustTrim out.stdout) with
      | some c => .ok c
      | none => .error .parseFail

/-- The `Commands::Apps` payload (`main.rs` 33-43). -/
structure CommandsApps where
  refresh : Bool
  dry_run : Bool
  remote_app : RemoteApp
  app_command : ApplicationCommand
deriving DecidableEq, Repr

/-- The remote-app resolution step of `Commands::build` (`main.rs` 73-78):
keep a fully pre-supplied (host, app_name) pair verbatim, otherwise prompt
(via `load_or_fetch_servers_cache` + `prompt_remote_app`), turning a missing
selection into the error `Could not find any apps`. -/
def remoteAppStep (host app_name : Option Str) (persisted : Option ServersCache)
    (fetched : Except Err ServersCache) (fzfApp : ProcOutcome) :
    Except Err RemoteApp :=
  match host, app_name with
  | some h, some a => .ok ⟨h, a⟩
  | _, _ =>
    match loadOrFetch persisted fetched with
    | .error e => .error e
    | .ok (cache, _) =>
      match promptRemoteApp cache fzfApp with
      | .error e => .error e
      | .ok none => .error (.fromMsg "Could not find any apps".data)
      | .ok (some ra) => .ok ra

/-- The app-command step of `Commands::build` (`main.rs` 80-83). -/
def appCommandStep (app_command : Option ApplicationCommandCli)
    (gumChoose : ProcOutcome) : Except Err ApplicationCommandCli :=
  match app_command with
  | some ac => .ok ac
  | none => chooseApplicationCommand gumChoose

/-- `Commands::build` for the Apps branch (`main.rs` 66-91).  The Bool traces
whether `fetch_containers` was invoked. -/
def commandsBuildApps (refresh dry_run : Bool) (host app_name : Option Str)
    (app_command : Option ApplicationCommandCli)
    (persisted : Option ServersCache) (fetched : Except Err ServersCache)
    (fzfApp : ProcOutcome) (gumChoose : ProcOutcome) (o : TunnelOracle) :
    Except Err CommandsApps × Bool :=
  match remoteAppStep host app_name persisted fetched fzfApp with
  | .error e => (.error e, false)
  | .ok ra =>
    match appCommandStep app_command gumChoose with
    | .error e => (.error e, false)
    | .ok acCli =>
      match ApplicationCommand.build acCli o with
      | (.error e, q) => (.error e, q)
      | (.ok ac, q) => (.ok ⟨refresh, dry_run, ra, ac⟩, q)

/-- Candidate lines handed to the app-selection fzf during `Commands::build`
(`none` when no prompt occurs: both parameters pre-supplied, the load/fetch
failed, or the inventory rendered no lines). -/
def presentedLinesOf (host app_name : Option Str)
    (persisted : Option ServersCache) (fetched : Except Err ServersCache) :
    Option (List Str) :=
  match host, app_name with
  | some _, some _ => none
  | _, _ =>
    match loadOrFetch persisted fetched with
    | .error _ => none
    | .ok (cache, _) =>
      if (buildFzfLines cache).isEmpty then none else some (buildFzfLines cache)

/-- Observable outcome of one `Apps` invocation of `main` (`main.rs`
569-601), stopping before the execution of the resolved operation. -/
structure MainAppsResult where
  presentedLines : Option (List Str)
  command : Except Err CommandsApps
  persistedFinal : Option ServersCache
deriving Repr

/-- Durable snapshot after `Commands::build` ran: unchanged, except for the
write inside `load_or_fetch_servers_cache` when no snapshot existed and the
prompt path fetched one. -/
def persistedAfterBuildOf (host app_name : Option Str)
    (persisted : Option ServersCache) (fetched : Except Err ServersCache) :
    Option ServersCache :=
  match host, app_name with
  | some _, some _ => persisted
  | _, _ =>
    match loadOrFetch persisted fetched with
    | .error _ => persisted
    | .ok (_, p) => p

/-- The `Apps` path of `main` (`main.rs` 569-601): `Commands::build` runs
first — so any interactive selection reads `load_or_fetch_servers_cache` —
and only afterwards, on the built command, come the `dry_run` bail and the
`refresh` fetch-and-persist.  `fetched` is the (deterministic) discovery
oracle used by both fetch sites. -/
def mainApps (refresh dry_run : Bool) (host app_name : Option Str)
    (app_command : Option ApplicationCommandCli)
    (persisted : Option ServersCache) (fetched : Except Err ServersCache)
    (fzfApp gumChoose : ProcOutcome) (o : TunnelOracle) : MainAppsResult :=
  match (commandsBuildApps refresh dry_run host app_name app_command
      persisted fetched fzfApp gumChoose o).1 with
  | .error e =>
    ⟨presentedLinesOf host app_name persisted fetched, .error e,
     persistedAfterBuildOf host app_name persisted fetched⟩
  | .ok cmd =>
    if cmd.dry_run then
      ⟨presentedLinesOf host app_name persisted fetched,
       .error (.fromMsg "Not implemented yet".data),
       persistedAfterBuildOf host app_name persisted fetched⟩
    else if cmd.refresh then
      match fetched with
      | .error e =>
        ⟨presentedLinesOf host app_name persisted fetched, .error e,
         persistedAfterBuildOf host app_name persisted fetched⟩
      | .ok fresh =>
        ⟨presentedLinesOf host app_name persisted fetched, .ok cmd, some fresh⟩
    else
      ⟨presentedLinesOf host app_name persisted fetched, .ok cmd,
       persistedAfterBuildOf host app_name persisted fetched⟩

/-! ## YAML values (`serde_yaml::Value`) and `get_env` (`main.rs` 137-153) -/

/-- `serde_yaml::Value`, restricted to the shapes `get_env` inspects. -/
inductive Yaml where
  | nullV
  | boolV (b : Bool)
  | intV (n : Int)
  | strV (s : Str)
  | seqV (items : List Yaml)
  | mapV (entries : List (Yaml × Yaml))

/-- `Value` equality against a `Value::String(key)`: true exactly for the
same string (`PartialEq` on `serde_yaml::Value` across variants is false). -/
def yamlIsStrKey (key : Str) : Yaml → Bool
  | .strV s => s = key
  | _ => false

/-- `serde_yaml::Mapping::get(&Value::String(key))`: first entry whose key
equals the string key. -/
def yamlMapGet (key : Str) : List (Yaml × Yaml) → Option Yaml
  | [] => none
  | (k', v) :: rest => if yamlIsStrKey key k' then some v else yamlMapGet key rest

/-- `Value::get(&str)`: a string index resolves only inside a mapping. -/
def yamlGet (v : Yaml) (key : Str) : Option Yaml :=
  match v with
  | .mapV entries => yamlMapGet key entries
  | _ => none

/-- `Value::as_str`. -/
def yamlAsStr : Yaml → Option Str
  | .strV s => some s
  | _ => none

/-- The `find_map` over a sequence-form environment block: the first
`"KEY=VALUE"` entry whose key (left of the first `=`) matches wins. -/
def envSeqFind (key : Str) : List Str → Option Str
  | [] => none
  | entry :: rest =>
    match splitOnce '=' entry with
    | none => envSeqFind key rest
    | some (k, v) => if k = key then some v else envSeqFind key rest

/-- `get_env` (`main.rs` 137-153). -/
def getEnv (doc : Yaml) (service key : Str) : Option Str :=
  match yamlGet doc "services".data with
  | none => none
  | some services =>
    match yamlGet services service with
    | none => none
    | some svc =>
      match yamlGet svc "environment".data with
      | none => none
      | some env =>
        match env with
        | .mapV m => (yamlMapGet key m).bind yamlAsStr
        | .seqV seq => envSeqFind key (seq.filterMap yamlAsStr)
        | _ => none

/-- The HostedUrl arm of `main` (`main.rs` 660-666), given the parsed remote
service configuration: the printed URL if the lookup succeeds, nothing
otherwise; the arm itself never errors past this point. -/
def hostedUrlStep (doc : Yaml) : Except Err (Option Str) :=
  .ok (match getEnv doc "identifier".data "LETSENCRYPT_HOST".data with
       | some url => some ("https://".data ++ url)
       | none => none)

/-- Fixed external-process oracle used by concrete witnesses: every external
tool fails to launch, so any query would be observable as an error. -/
def failingOracle : TunnelOracle :=
  ⟨.error "ssh failed".data, .error "fzf failed".data,
   .error "gum failed".data, .error "gum failed".data⟩

/-- The probe counter of the *last* declaration of `h` in the host list
(empty names are skipped and do not consume a counter). -/
def probeIndexOf : List Str → Nat → Str → Option Nat
  | [], _, _ => none
  | host :: rest, i, h =>
    if host.isEmpty then probeIndexOf rest i h
    else
      match probeIndexOf rest (i + 1) h with
      | some j => some j
      | none => if host = h then some i else none

/-! ## Claim C9 -/

/-- Join lines with a trailing `\n` after each. -/
def joinNl : List Str → Str
  | [] => []
  | l :: rest => l ++ '\n' :: joinNl rest

/-! ## TOML serialization of the inventory (`write_servers_cache`,
`load_servers_cache`; `main.rs` 363-402)

`toml::to_string_pretty` / `toml::from_str` are modelled by a printer and a
parser for exactly the TOML subset this data shape round-trips through: a
`[servers]` header for the empty map, per-host `[servers.<key>]` sections
carrying `last_updated` and — when the folder list is empty — an inline
`data_folders = []`, plus `[[servers.<key>.data_folders]]` array-of-tables
items carrying `path` and optionally `container`.  Keys are bare when made
of `[A-Za-z0-9_-]` and non-empty, otherwise quoted basic strings; string
values are basic strings with the standard escapes and `\uXXXX` for other
control characters. -/

/-- Hex digit character (uppercase), for `\uXXXX` escapes. -/
def hexDigit (n : Nat) : Char :=
  if n < 10 then Char.ofNat ('0'.toNat + n) else Char.ofNat ('A'.toNat + (n - 10))

/-- Four-digit hex rendering of a code point below 0x10000. -/
def hex4 (n : Nat) : Str :=
  [hexDigit (n / 4096 % 16), hexDigit (n / 256 % 16),
   hexDigit (n / 16 % 16), hexDigit (n % 16)]

/-- Decimal digit character. -/
def digitChar (n : Nat) : Char := Char.ofNat ('0'.toNat + n)

/-- Fueled decimal printer for `Nat` (fuel `n + 1` always suffices). -/
def natToCharsAux : Nat → Nat → Str
  | 0, _ => []
  | fuel + 1, n =>
    if n < 10 then [digitChar n]
    else natToCharsAux fuel (n / 10) ++ [digitChar (n % 10)]

/-- Decimal rendering of a `Nat`. -/
def natToChars (n : Nat) : Str := natToCharsAux (n + 1) n

/-- Decimal rendering of an `i64` value. -/
def intToChars (i : Int) : Str :=
  if i < 0 then '-' :: natToChars (-i).toNat else natToChars i.toNat

/-- TOML basic-string escaping of one character. -/
def escapeChar (c : Char) : Str :=
  if c = '"' then ['\\', '"']
  else if c = '\\' then ['\\', '\\']
  else if c = '\x08' then ['\\', 'b']
  else if c = '\t' then ['\\', 't']
  else if c = '\n' then ['\\', 'n']
  else if c = '\x0c' then ['\\', 'f']
  else if c = '\r' then ['\\', 'r']
  else if c.toNat < 0x20 || c.toNat = 0x7f then '\\' :: 'u' :: hex4 c.toNat
  else [c]

/-- TOML basic-string escaping. -/
def escapeStr (s : Str) : Str := s.flatMap escapeChar

/-- A quoted TOML basic string. -/
def quoteStr (s : Str) : Str := '"' :: (escapeStr s ++ ['"'])

/-- Characters allowed in a bare TOML key. -/
def isBareKeyChar (c : Char) : Bool :=
  c.isAlpha || c.isDigit || c = '_' || c = '-'

/-- TOML rendering of a table key: bare when possible, quoted otherwise. -/
def keyRepr (k : Str) : Str :=
  if !k.isEmpty && k.all isBareKeyChar then k else quoteStr k

/-- One `[[servers.<key>.data_folders]]` item. -/
def printFolder (k : Str) (f : DataFolder) : List Str :=
  ["[[servers.".data ++ (keyRepr k ++ ".data_folders]]".data),
   "path = ".data ++ quoteStr f.path] ++
  (match f.container with
   | none => []
   | some c => ["container = ".data ++ quoteStr c])

/-- One `[servers.<key>]` section. -/
def printEntry (k : Str) (e : ServerEntry) : List Str :=
  (["[servers.".data ++ (keyRepr k ++ "]".data),
    "last_updated = ".data ++ intToChars e.last_updated] ++
   (if e.data_folders.isEmpty then ["data_folders = []".data] else [])) ++
  e.data_folders.flatMap (printFolder k)

/-- `toml::to_string_pretty` on a `ServersCache` (the lines, then joined
with newlines). -/
def printServersTomlLines (cache : ServersCache) : List Str :=
  match cache.servers with
  | [] => ["[servers]".data]
  | entries => entries.flatMap fun kv => printEntry kv.1 kv.2

/-- The serialized snapshot written by `write_servers_cache`. -/
def writeServersCacheContents (cache : ServersCache) : Str :=
  joinNl (printServersTomlLines cache)

/-- Numeric value of a hex digit character (both cases). -/
def hexVal (c : Char) : Option Nat :=
  if '0'.toNat ≤ c.toNat ∧ c.toNat ≤ '9'.toNat then some (c.toNat - '0'.toNat)
  else if 'A'.toNat ≤ c.toNat ∧ c.toNat ≤ 'F'.toNat then
    some (c.toNat - 'A'.toNat + 10)
  else if 'a'.toNat ≤ c.toNat ∧ c.toNat ≤ 'f'.toNat then
    some (c.toNat - 'a'.toNat + 10)
  else none

/-- Digits-only decimal parse. -/
def parseNatDigits (s : Str) : Option Nat :=
  if s.isEmpty || !s.all Char.isDigit then none
  else some (s.foldl (fun acc c => acc * 10 + (c.toNat - '0'.toNat)) 0)

/-- Decimal parse of an optionally negated integer. -/
def parseInt (s : Str) : Option Int :=
  match s with
  | [] => none
  | c :: rest =>
    if c = '-' then (parseNatDigits rest).map fun n => -(n : Int)
    else (parseNatDigits (c :: rest)).map fun n => (n : Int)

/-- Unescape the inside of a basic string: consume characters until the
unescaped closing quote, which must be followed by exactly `trail`.  Fuel
bounds the characters consumed. -/
def unescapeFuel (trail : Str) : Nat → Str → Option Str
  | 0, _ => none
  | _ + 1, [] => none
  | fuel + 1, c :: rest =>
    if c = '"' then (if rest = trail then some [] else none)
    else if c = '\\' then
      match rest with
      | [] => none
      | e :: rest2 =>
        if e = '"' then (unescapeFuel trail fuel rest2).map ('"' :: ·)
        else if e = '\\' then (unescapeFuel trail fuel rest2).map ('\\' :: ·)
        else if e = 'b' then (unescapeFuel trail fuel rest2).map ('\x08' :: ·)
        else if e = 't' then (unescapeFuel trail fuel rest2).map ('\t' :: ·)
        else if e = 'n' then (unescapeFuel trail fuel rest2).map ('\n' :: ·)
        else if e = 'f' then (unescapeFuel trail fuel rest2).map ('\x0c' :: ·)
        else if e = 'r' then (unescapeFuel trail fuel rest2).map ('\r' :: ·)
        else if e = 'u' then
          match rest2 with
          | h3 :: h2 :: h1 :: h0 :: rest3 =>
            match hexVal h3, hexVal h2, hexVal h1, hexVal h0 with
            | some a, some b, some c2, some d =>
              (unescapeFuel trail fuel rest3).map
                (Char.ofNat (a * 4096 + b * 256 + c2 * 16 + d) :: ·)
            | _, _, _, _ => none
          | _ => none
        else none
    else (unescapeFuel trail fuel rest).map (c :: ·)

/-- Parse a rendered key (bare or quoted) followed by exactly `trail`. -/
def parseKeyRepr (trail : Str) (s : Str) : Option Str :=
  match s with
  | [] => none
  | c :: rest =>
    if c = '"' then unescapeFuel trail (rest.length + 1) rest
    else
      let k := (c :: rest).takeWhile isBareKeyChar
      if k.isEmpty then none
      else if (c :: rest).drop k.length = trail then some k else none

/-- Parse a quoted basic-string value occupying the rest of a line. -/
def parseQuoted (s : Str) : Option Str :=
  match s with
  | '"' :: rest => unescapeFuel [] (rest.length + 1) rest
  | _ => none

/-- Partial state of one `[servers.<key>]` section during parsing. -/
structure EntryBuild where
  key : Str
  time : Option Int
  foldersSeen : Bool
  folders : List DataFolder
  openFolder : Option (Option Str × Option Str)
deriving DecidableEq, Repr

/-- Close the open `[[...]]` item, if any; its `path` is mandatory. -/
def closeFolder (eb : EntryBuild) : Option EntryBuild :=
  match eb.openFolder with
  | none => some eb
  | some (some p, c) =>
    some ⟨eb.key, eb.time, eb.foldersSeen, eb.folders ++ [⟨p, c⟩], none⟩
  | some (none, _) => none

/-- Close the current section: `last_updated` and a `data_folders`
occurrence (inline empty array or at least one `[[...]]` item) are
mandatory, as serde requires both fields. -/
def closeEntry : Option EntryBuild → Option (List (Str × ServerEntry))
  | none => some []
  | some eb =>
    match closeFolder eb with
    | none => none
    | some eb2 =>
      match eb2.time with
      | none => none
      | some t =>
        if eb2.foldersSeen then some [(eb2.key, ⟨t, eb2.folders⟩)] else none

/-- Parser state: finished sections plus the currently open one. -/
structure TomlSt where
  finished : List (Str × ServerEntry)
  cur : Option EntryBuild
deriving DecidableEq, Repr

/-- A fresh section for key `k`. -/
def newEntry (k : Str) : EntryBuild := ⟨k, none, false, [], none⟩

/-- Process one line of the snapshot document. -/
def processLine (st : TomlSt) (line : Str) : Option TomlSt :=
  if line = [] then some st
  else if line = "[servers]".data then
    match st.cur with
    | none => some st
    | some _ => none
  else if rustStartsWith line "[[servers.".data then
    match parseKeyRepr ".data_folders]]".data (line.drop 10) with
    | none => none
    | some k =>
      match st.cur with
      | none => none
      | some eb =>
        if eb.key = k then
          match closeFolder eb with
          | none => none
          | some eb2 =>
            some ⟨st.finished,
              some ⟨eb2.key, eb2.time, true, eb2.folders, some (none, none)⟩⟩
        else none
  else if rustStartsWith line "[servers.".data then
    match parseKeyRepr "]".data (line.drop 9) with
    | none => none
    | some k =>
      match closeEntry st.cur with
      | none => none
      | some closed => some ⟨st.finished ++ closed, some (newEntry k)⟩
  else if rustStartsWith line "last_updated = ".data then
    match st.cur with
    | none => none
    | some eb =>
      match eb.openFolder, eb.time with
      | none, none =>
        match parseInt (line.drop 15) with
        | none => none
        | some t =>
          some ⟨st.finished,
            some ⟨eb.key, some t, eb.foldersSeen, eb.folders, none⟩⟩
      | _, _ => none
  else if line = "data_folders = []".data then
    match st.cur with
    | none => none
    | some eb =>
      match eb.openFolder, eb.foldersSeen with
      | none, false =>
        some ⟨st.finished, some ⟨eb.key, eb.time, true, eb.folders, none⟩⟩
      | _, _ => none
  else if rustStartsWith line "path = ".data then
    match st.cur with
    | none => none
    | some eb =>
      match eb.openFolder with
      | some (none, c) =>
        match parseQuoted (line.drop 7) with
        | none => none
        | some p =>
          some ⟨st.finished,
            some ⟨eb.key, eb.time, eb.foldersSeen, eb.folders, some (some p, c)⟩⟩
      | _ => none
  else if rustStartsWith line "container = ".data then
    match st.cur with
    | none => none
    | some eb =>
      match eb.openFolder with
      | some (p, none) =>
        match parseQuoted (line.drop 12) with
        | none => none
        | some c =>
          some ⟨st.finished,
            some ⟨eb.key, eb.time, eb.foldersSeen, eb.folders, some (p, some c)⟩⟩
      | _ => none
  else none

/-- Fold the line processor over the document. -/
def tomlFold (st : TomlSt) : List Str → Option TomlSt
  | [] => some st
  | l :: rest =>
    match processLine st l with
    | none => none
    | some st2 => tomlFold st2 rest

/-- `toml::from_str::<ServersCache>` on the snapshot document. -/
def parseServersToml (contents : Str) : Option ServersCache :=
  match tomlFold ⟨[], none⟩ (rustLines contents) with
  | none => none
  | some st =>
    match closeEntry st.cur with
    | none => none
    | some closed => some ⟨st.finished ++ closed⟩

/-- `load_servers_cache` (`main.rs` 363-370): a read failure (`none`) or an
unparsable document falls back to the empty cache. -/
def loadServersCacheFromContents (fileContents : Option Str) : ServersCache :=
  match fileContents with
  | none => ⟨[]⟩
  | some contents =>
    match parseServersToml contents with
    | some c => c
    | none => ⟨[]⟩

/-! ## Printed lines contain no newline and no carriage return -/

/-- A line safe for `joinNl`/`rustLines` round-tripping. -/
def strNoNlCr (l : Str) : Prop := ∀ x ∈ l, x ≠ '\n' ∧ x ≠ '\r'

/-- Run the parser from a state and close the final section. -/
def runParse (st : TomlSt) (lines : List Str) :
    Option (List (Str × ServerEntry)) :=
  match tomlFold st lines with
  | none => none
  | some st2 => (closeEntry st2.cur).map fun cl => st2.finished ++ cl

/-! ## Theorems -/

/-! ## Lemmas about ANSI stripping and splitting -/

theorem dropWhile_length_le (p : Char → Bool) (l : Str) :
    (l.dropWhile p).length ≤ l.length := by
  induction l with
  | nil => simp
  | cons c cs ih =>
    by_cases hp : p c
    · simp [List.dropWhile, hp]
      omega
    · simp [List.dropWhile, hp]

theorem matchAnsi_length {l r : Str} (h : matchAnsi l = some r) : r.length ≤ l.length := by
  cases l with
  | nil => simp [matchAnsi] at h
  | cons x xs =>
    simp only [matchAnsi] at h
    by_cases hx : x = '['
    · rw [if_pos hx] at h
      cases hdw : xs.dropWhile isCsiBody with
      | nil => rw [hdw] at h; simp [afterBody] at h
      | cons d ds =>
        rw [hdw] at h
        simp only [afterBody] at h
        by_cases hd : d = 'm'
        · rw [if_pos hd] at h
          have h1 := dropWhile_length_le isCsiBody xs
          rw [hdw] at h1
          simp only [Option.some.injEq] at h
          subst h
          simp only [List.length_cons] at h1 ⊢
          omega
        · rw [if_neg hd] at h; simp at h
    · rw [if_neg hx] at h; simp at h

theorem stripAnsiFuel_eq (fuel : Nat) :
    ∀ (fuel2 : Nat) (s : Str), s.length ≤ fuel → s.length ≤ fuel2 →
      stripAnsiFuel fuel s = stripAnsiFuel fuel2 s := by
  induction fuel with
  | zero =>
    intro fuel2 s h1 _
    have hs : s = [] := List.eq_nil_of_length_eq_zero (Nat.le_zero.mp h1)
    subst hs
    cases fuel2 <;> rfl
  | succ n ih =>
    intro fuel2 s h1 h2
    cases s with
    | nil => cases fuel2 <;> rfl
    | cons c rest =>
      cases fuel2 with
      | zero => simp at h2
      | succ m =>
        simp only [List.length_cons] at h1 h2
        simp only [stripAnsiFuel]
        by_cases hc : c = '\x1b'
        · rw [if_pos hc, if_pos hc]
          cases hma : matchAnsi rest with
          | some rest' =>
            have hlen := matchAnsi_length hma
            exact ih m rest' (by omega) (by omega)
          | none =>
            exact congrArg (c :: ·) (ih m rest (by omega) (by omega))
        · rw [if_neg hc, if_neg hc]
          exact congrArg (c :: ·) (ih m rest (by omega) (by omega))

/-- Unfolding rule for `stripAnsi` at a cons cell. -/
theorem stripAnsi_cons (c : Char) (rest : Str) :
    stripAnsi (c :: rest) =
      if c = '\x1b' then
        match matchAnsi rest with
        | some rest' => stripAnsi rest'
        | none => c :: stripAnsi rest
      else c :: stripAnsi rest := by
  show stripAnsiFuel (rest.length + 1) (c :: rest) = _
  simp only [stripAnsiFuel]
  by_cases hc : c = '\x1b'
  · rw [if_pos hc, if_pos hc]
    cases hma : matchAnsi rest with
    | some rest' =>
      exact stripAnsiFuel_eq rest.length rest'.length rest' (matchAnsi_length hma) le_rfl
    | none => rfl
  · rw [if_neg hc, if_neg hc]
    rfl

/-- Characters other than ESC pass through `stripAnsi` untouched. -/
theorem stripAnsi_append_no_esc (p rest : Str) (hp : '\x1b' ∉ p) :
    stripAnsi (p ++ rest) = p ++ stripAnsi rest := by
  induction p with
  | nil => rfl
  | cons c cs ih =>
    have hc : c ≠ '\x1b' := fun h => hp (h ▸ List.mem_cons_self c cs)
    have hcs : '\x1b' ∉ cs := fun h => hp (List.mem_cons_of_mem _ h)
    rw [List.cons_append, stripAnsi_cons, if_neg hc, ih hcs, List.cons_append]

/-- Stripping the dim-painted host recovers the host, provided the host
itself contains no ESC character. -/
theorem stripAnsi_dimPaint (h : Str) (hh : '\x1b' ∉ h) :
    stripAnsi (dimPaint h) = h := by
  have h1 : matchAnsi ('[' :: '2' :: 'm' :: (h ++ ['\x1b', '[', '0', 'm'])) =
      some (h ++ ['\x1b', '[', '0', 'm']) := rfl
  rw [show dimPaint h =
        '\x1b' :: ('[' :: '2' :: 'm' :: (h ++ ['\x1b', '[', '0', 'm'])) from rfl,
      stripAnsi_cons, if_pos rfl, h1]
  show stripAnsi (h ++ ['\x1b', '[', '0', 'm']) = h
  rw [stripAnsi_append_no_esc h ['\x1b', '[', '0', 'm'] hh]
  rw [show stripAnsi ['\x1b', '[', '0', 'm'] = [] from rfl, List.append_nil]

/-- `split_once c` on `p ++ [c] ++ h` recovers `(p, h)` when `p` does not
contain the separator. -/
theorem splitOnce_append (sep : Char) (p h : Str) (hp : sep ∉ p) :
    splitOnce sep (p ++ sep :: h) = some (p, h) := by
  induction p with
  | nil => simp [splitOnce]
  | cons c cs ih =>
    have hc : c ≠ sep := fun hcc => hp (hcc ▸ List.mem_cons_self c cs)
    have hcs : sep ∉ cs := fun hm => hp (List.mem_cons_of_mem _ hm)
    rw [List.cons_append]
    simp only [splitOnce, if_neg hc]
    show ((splitOnce sep (cs ++ sep :: h)).map fun p => (c :: p.1, p.2)) =
      some (c :: cs, h)
    rw [ih hcs]
    rfl

/-! ## Claim C1 -/

/--
C1 (amended): for every inventory store and every candidate line produced by
`build_fzf_lines`, `parse_selection` recovers the original (host, folder-path)
pair — provided the folder path contains no `:` and neither the folder path
nor the host contains an ESC character.  (Without those provisos the claim
fails: `RemoteApp::from_str` splits at the *first* `:` of the line, and
`strip_ansi` deletes any ANSI-escape-shaped substrings of the data itself;
see the counterexample.)
-/
theorem C1_selection_left_inverse (cache : ServersCache) (host : Str)
    (entry : ServerEntry) (folder : DataFolder)
    (hmem : (host, entry) ∈ cache.servers) (hf : folder ∈ entry.data_folders)
    (hcolon : ':' ∉ folder.path) (hesc1 : '\x1b' ∉ folder.path)
    (hesc2 : '\x1b' ∉ host) :
    (folder.path ++ ':' :: dimPaint host) ∈ buildFzfLines cache ∧
    parseSelection (folder.path ++ ':' :: dimPaint host) =
      some ⟨host, folder.path⟩ := by
  constructor
  · simp only [buildFzfLines, List.mem_flatMap]
    exact ⟨(host, entry), hmem, List.mem_map.mpr ⟨folder, hf, rfl⟩⟩
  · unfold parseSelection
    have hsplit : folder.path ++ ':' :: dimPaint host =
        (folder.path ++ [':']) ++ dimPaint host := by simp
    have hnoesc : '\x1b' ∉ folder.path ++ [':'] := by
      intro hm
      rcases List.mem_append.mp hm with hm | hm
      · exact hesc1 hm
      · simp at hm
    rw [hsplit, stripAnsi_append_no_esc _ _ hnoesc, stripAnsi_dimPaint host hesc2]
    have : (folder.path ++ [':']) ++ host = folder.path ++ ':' :: host := by simp
    rw [this]
    unfold RemoteApp.fromStr
    rw [splitOnce_append ':' folder.path host hcolon]
    rfl

/--
C1 witness: concrete instantiation of `C1_selection_left_inverse` on a
one-host, one-folder store.
-/
theorem C1_selection_left_inverse_witness :
    ("app".data ++ ':' :: dimPaint "h1".data) ∈
        buildFzfLines ⟨[("h1".data, ⟨5, [⟨"app".data, none⟩]⟩)]⟩ ∧
    parseSelection ("app".data ++ ':' :: dimPaint "h1".data) =
      some ⟨"h1".data, "app".data⟩ :=
  C1_selection_left_inverse ⟨[("h1".data, ⟨5, [⟨"app".data, none⟩]⟩)]⟩
    "h1".data ⟨5, [⟨"app".data, none⟩]⟩ ⟨"app".data, none⟩ (by decide)
    (by decide) (by decide) (by decide) (by decide)

/--
C1 counterexample: the claim as stated is false.  With host `"h"` and folder
path `"a:b"`, the produced candidate line parses to the pair
(host `"b:h"`, app `"a"`), not the original (host `"h"`, app `"a:b"`),
because `from_str` splits at the first `:`.
-/
theorem C1_counterexample :
    ("a:b".data ++ ':' :: dimPaint "h".data) ∈
        buildFzfLines ⟨[("h".data, ⟨0, [⟨"a:b".data, none⟩]⟩)]⟩ ∧
    parseSelection ("a:b".data ++ ':' :: dimPaint "h".data) =
      some ⟨"b:h".data, "a".data⟩ ∧
    (some (⟨"b:h".data, "a".data⟩ : RemoteApp) ≠
      some ⟨"h".data, "a:b".data⟩) := by
  refine ⟨by decide, by decide, by decide⟩

/-! ## Claim C4 -/

/--
C4: for every Tunnel request whose container name is pre-supplied (whatever
the state of the two ports), `ApplicationCommand::build` keeps the supplied
name verbatim in any resolved operation and never invokes
`fetch_containers` (the recorded query trace is `false`).
-/
theorem C4_presupplied_container_short_circuit (c : Str) (hp rp : Option Nat)
    (o : TunnelOracle) :
    (ApplicationCommand.build (.tunnel (some c) hp rp) o).2 = false ∧
    ∀ cmd, (ApplicationCommand.build (.tunnel (some c) hp rp) o).1 = .ok cmd →
      ∃ h r, cmd = .tunnel c h r := by
  rcases rp with _ | rpv <;> rcases hp with _ | hpv <;>
    simp only [ApplicationCommand.build] <;>
    rcases promptNumber o.gumRemotePort with e | rv <;>
    rcases promptNumber o.gumHostPort with e2 | hv <;>
    refine ⟨by trivial, ?_⟩ <;>
    intro cmd hcmd <;>
    first
      | exact Except.noConfusion hcmd
      | exact ⟨_, _, (Except.ok.inj hcmd).symm⟩

/--
C4 witness: with container `web` and both ports supplied, the build never
queries the remote target (even though every external tool would fail) and
resolves to the verbatim container name.
-/
theorem C4_presupplied_container_short_circuit_witness :
    (ApplicationCommand.build (.tunnel (some "web".data) (some 8080) (some 80))
      failingOracle).2 = false ∧
    ∃ h r, ApplicationCommand.tunnel "web".data 8080 80 =
      ApplicationCommand.tunnel "web".data h r :=
  ⟨(C4_presupplied_container_short_circuit "web".data (some 8080) (some 80)
      failingOracle).1,
   (C4_presupplied_container_short_circuit "web".data (some 8080) (some 80)
      failingOracle).2 (.tunnel "web".data 8080 80) rfl⟩

/-! ## Claim C6 -/

/--
C6 (amended): `fetch_containers` propagates a failure to launch the
transport as an error to its caller (it is not absorbed); for a transport
that ran to completion the remote exit status is ignored entirely — the
result is always the stdout lines, hence zero names whenever stdout is
empty, and never an error.
-/
theorem C6_fetch_containers_amended :
    (∀ e, fetchContainers (.error e) = .error (.spawnFail e)) ∧
    (∀ (b : Bool) (out : Str),
      fetchContainers (.ok ⟨b, out⟩) = fetchContainers (.ok ⟨true, out⟩)) ∧
    (∀ res : ProcResult, res.stdout = [] → fetchContainers (.ok res) = .ok []) := by
  refine ⟨fun e => rfl, fun b out => rfl, fun res h => ?_⟩
  simp [fetchContainers, h, rustLines, rustLinesGo]

/--
C6 witness: concrete instances of the three amended conjuncts.
-/
theorem C6_fetch_containers_amended_witness :
    fetchContainers (.error "ssh spawn failed".data) =
      .error (.spawnFail "ssh spawn failed".data) ∧
    fetchContainers (.ok ⟨false, "x".data⟩) =
      fetchContainers (.ok ⟨true, "x".data⟩) ∧
    fetchContainers (.ok ⟨false, []⟩) = .ok [] :=
  ⟨C6_fetch_containers_amended.1 "ssh spawn failed".data,
   C6_fetch_containers_amended.2.1 false "x".data,
   C6_fetch_containers_amended.2.2 ⟨false, []⟩ rfl⟩

/--
C6 counterexample: the claim as stated is false on both counts.  A failure
to execute the transport is surfaced to the caller as an error (not an empty
list), and a non-zero remote exit status with non-empty stdout yields the
stdout lines (not zero container names).
-/
theorem C6_counterexample :
    fetchContainers (.error "ssh spawn failed".data) =
      .error (.spawnFail "ssh spawn failed".data) ∧
    (Except.error (Err.spawnFail "ssh spawn failed".data) ≠
      (.ok [] : Except Err (List Str))) ∧
    fetchContainers (.ok ⟨false, 'c' :: '1' :: '\n' :: []⟩) =
      .ok [['c', '1']] ∧
    ((.ok [['c', '1']] : Except Err (List Str)) ≠ .ok []) := by
  refine ⟨rfl, ?_, rfl, ?_⟩
  · intro h; cases h
  · intro h; simp at h

/-! ## Claim C7 -/

/--
C7: when the remote target reports zero running containers (empty stdout
line list) and the picker consequently yields no selection, Tunnel
resolution fails with the resolution-failure error
`Could not find a container`, which is distinguishable (by construction of
`anyhow::Error` from distinct sources) from a transport error.
-/
theorem C7_zero_containers_resolution_failure (hp rp : Option Nat)
    (o : TunnelOracle) (res : ProcResult)
    (hfetch : o.fetchContainersOutcome = .ok res)
    (hempty : rustLines res.stdout = [])
    (hfzf : runFzf o.fzfContainer = .ok none) :
    fetchContainers o.fetchContainersOutcome = .ok [] ∧
    (ApplicationCommand.build (.tunnel none hp rp) o).1 =
      .error (.fromMsg "Could not find a container".data) ∧
    ∀ e, Err.fromMsg "Could not find a container".data ≠ Err.spawnFail e := by
  have hfc : fetchContainers o.fetchContainersOutcome = .ok [] := by
    rw [hfetch]
    simp [fetchContainers, hempty]
  refine ⟨hfc, ?_, fun e h => Err.noConfusion h⟩
  simp only [ApplicationCommand.build, hfc, hfzf]

/--
C7 witness: remote reports success with empty stdout, fzf exits without a
selection.
-/
theorem C7_zero_containers_resolution_failure_witness :
    fetchContainers (TunnelOracle.fetchContainersOutcome
      ⟨.ok ⟨true, []⟩, .ok ⟨false, []⟩, .ok ⟨true, "1".data⟩,
       .ok ⟨true, "2".data⟩⟩) = .ok [] ∧
    (ApplicationCommand.build (.tunnel none none none)
      ⟨.ok ⟨true, []⟩, .ok ⟨false, []⟩, .ok ⟨true, "1".data⟩,
       .ok ⟨true, "2".data⟩⟩).1 =
      .error (.fromMsg "Could not find a container".data) ∧
    ∀ e, Err.fromMsg "Could not find a container".data ≠ Err.spawnFail e :=
  C7_zero_containers_resolution_failure none none
    ⟨.ok ⟨true, []⟩, .ok ⟨false, []⟩, .ok ⟨true, "1".data⟩, .ok ⟨true, "2".data⟩⟩
    ⟨true, []⟩ rfl rfl rfl

/-! ## Claim C2 -/

/--
C2 (amended): cancelling the fuzzy picker is represented as an explicit
no-value outcome (`Ok(None)`) at the picker wrapper `run_fzf`, but it does
not propagate to the top level as a clean exit: the command layer converts a
missing value into an error — a cancelled container picker becomes the error
`Could not find a container`, a cancelled app picker makes `Commands::build`
fail with `Could not find any apps` — and cancelling a gum input prompt is
reported directly as the error `gum was cancelled`.  The command therefore
terminates with an error result, not a clean non-error exit.
-/
theorem C2_cancellation_amended :
    (∀ res : ProcResult, res.success = false → runFzf (.ok res) = .ok none) ∧
    (∀ res : ProcResult, res.success = false →
      promptNumber (.ok res) = .error (.fromMsg "gum was cancelled".data)) ∧
    (∀ (hp rp : Option Nat) (o : TunnelOracle) (res : ProcResult),
      o.fetchContainersOutcome = .ok res → runFzf o.fzfContainer = .ok none →
      (ApplicationCommand.build (.tunnel none hp rp) o).1 =
        .error (.fromMsg "Could not find a container".data)) ∧
    (∀ (refresh dry_run : Bool) (app_command : Option ApplicationCommandCli)
       (cache : ServersCache) (fetched : Except Err ServersCache)
       (fzfApp gumChoose : ProcOutcome) (o : TunnelOracle),
      (buildFzfLines cache).isEmpty = false → runFzf fzfApp = .ok none →
      (commandsBuildApps refresh dry_run none none app_command (some cache)
        fetched fzfApp gumChoose o).1 =
        .error (.fromMsg "Could not find any apps".data)) := by
  refine ⟨?_, ?_, ?_, ?_⟩
  · intro res h
    simp [runFzf, h]
  · intro res h
    simp [promptNumber, h]
  · intro hp rp o res hfetch hfzf
    simp [ApplicationCommand.build, fetchContainers, hfetch, hfzf]
  · intro refresh dry_run app_command cache fetched fzfApp gumChoose o hne hfzf
    simp [commandsBuildApps, remoteAppStep, loadOrFetch, promptRemoteApp, hne,
      hfzf]

/--
C2 witness: concrete cancelled interactions for each amended conjunct.
-/
theorem C2_cancellation_amended_witness :
    runFzf (.ok ⟨false, []⟩) = .ok none ∧
    promptNumber (.ok ⟨false, []⟩) =
      .error (.fromMsg "gum was cancelled".data) ∧
    (ApplicationCommand.build (.tunnel none none none)
      ⟨.ok ⟨true, []⟩, .ok ⟨false, []⟩, .ok ⟨true, "1".data⟩,
       .ok ⟨true, "2".data⟩⟩).1 =
      .error (.fromMsg "Could not find a container".data) ∧
    (commandsBuildApps false false none none none
      (some ⟨[("h1".data, ⟨0, [⟨"app".data, none⟩]⟩)]⟩) (.error .parseFail)
      (.ok ⟨false, []⟩) (.ok ⟨true, []⟩) failingOracle).1 =
      .error (.fromMsg "Could not find any apps".data) := by
  refine ⟨?_, ?_, ?_, ?_⟩
  · exact C2_cancellation_amended.1 ⟨false, []⟩ rfl
  · exact C2_cancellation_amended.2.1 ⟨false, []⟩ rfl
  · exact C2_cancellation_amended.2.2.1 none none
      ⟨.ok ⟨true, []⟩, .ok ⟨false, []⟩, .ok ⟨true, "1".data⟩,
       .ok ⟨true, "2".data⟩⟩ ⟨true, []⟩ rfl rfl
  · exact C2_cancellation_amended.2.2.2 false false none
      ⟨[("h1".data, ⟨0, [⟨"app".data, none⟩]⟩)]⟩ (.error .parseFail)
      (.ok ⟨false, []⟩) (.ok ⟨true, []⟩) failingOracle rfl rfl

/--
C2 counterexample: the claim as stated is false.  Cancelling the gum input
prompt yields the error `gum was cancelled`, and a command whose operator
declines the app picker terminates with the error `Could not find any apps`
— an error result, not a clean non-error exit.
-/
theorem C2_counterexample :
    promptNumber (.ok ⟨false, []⟩) =
      .error (.fromMsg "gum was cancelled".data) ∧
    (mainApps false false none none none
        (some ⟨[("h1".data, ⟨0, [⟨"app".data, none⟩]⟩)]⟩) (.error .parseFail)
        (.ok ⟨false, []⟩) (.ok ⟨true, []⟩) failingOracle).command =
      .error (.fromMsg "Could not find any apps".data) :=
  ⟨rfl, rfl⟩

/-! ## Claim C5 -/

/-- Any `.ok` result of `Commands::build` carries the `refresh` and
`dry_run` flags it was invoked with (`main.rs` 85-90). -/
theorem commandsBuildApps_flags (refresh dry_run : Bool)
    (host app_name : Option Str) (app_command : Option ApplicationCommandCli)
    (persisted : Option ServersCache) (fetched : Except Err ServersCache)
    (fzfApp gumChoose : ProcOutcome) (o : TunnelOracle) (cmd : CommandsApps)
    (h : (commandsBuildApps refresh dry_run host app_name app_command persisted
      fetched fzfApp gumChoose o).1 = .ok cmd) :
    cmd.refresh = refresh ∧ cmd.dry_run = dry_run := by
  unfold commandsBuildApps at h
  split at h
  · exact Except.noConfusion h
  · split at h
    · exact Except.noConfusion h
    · split at h
      · exact Except.noConfusion h
      · rw [← Except.ok.inj h]
        exact ⟨rfl, rfl⟩

/--
C5 (amended): `Commands::build` — and with it any interactive selection —
runs before the refresh step of `main`.  So with a persisted snapshot
present, the candidate list presented for selection is built from the
previously persisted snapshot regardless of `refresh`; the freshly
discovered snapshot only replaces the durable snapshot afterwards (when
`refresh` is set, the command was built successfully and `dry_run` is off),
and without `refresh` the persisted snapshot is loaded back verbatim and
left unchanged.
-/
theorem C5_refresh_after_selection (app_command : Option ApplicationCommandCli)
    (old fresh : ServersCache) (fzfApp gumChoose : ProcOutcome)
    (o : TunnelOracle) :
    (presentedLinesOf none none (some old) (.ok fresh) =
      if (buildFzfLines old).isEmpty then none
      else some (buildFzfLines old)) ∧
    (∀ cmd, (mainApps true false none none app_command (some old) (.ok fresh)
        fzfApp gumChoose o).command = .ok cmd →
      (mainApps true false none none app_command (some old) (.ok fresh)
        fzfApp gumChoose o).persistedFinal = some fresh) ∧
    (∀ dry_run, (mainApps false dry_run none none app_command (some old)
        (.ok fresh) fzfApp gumChoose o).persistedFinal = some old) := by
  refine ⟨rfl, ?_, ?_⟩
  · intro cmd hcmd
    rcases hb : (commandsBuildApps true false none none app_command
        (some old) (.ok fresh) fzfApp gumChoose o).1 with e | cmd0
    · unfold mainApps at hcmd
      rw [hb] at hcmd
      exact Except.noConfusion hcmd
    · rcases commandsBuildApps_flags _ _ _ _ _ _ _ _ _ _ _ hb with ⟨hr, hd⟩
      unfold mainApps
      rw [hb]
      simp [hd, hr]
  · intro dry_run
    rcases hb : (commandsBuildApps false dry_run none none app_command
        (some old) (.ok fresh) fzfApp gumChoose o).1 with e | cmd0
    · unfold mainApps
      rw [hb]
      rfl
    · rcases commandsBuildApps_flags _ _ _ _ _ _ _ _ _ _ _ hb with ⟨hr, hd⟩
      unfold mainApps
      rw [hb]
      cases hdry : cmd0.dry_run <;>
        simp [hdry, hr, persistedAfterBuildOf, loadOrFetch]

/--
C5 witness: concrete old/fresh snapshots, an ssh-session command with a
successful interactive selection from the old snapshot's single line.
-/
theorem C5_refresh_after_selection_witness :
    (presentedLinesOf none none
        (some ⟨[("h1".data, ⟨0, [⟨"app".data, none⟩]⟩)]⟩)
        (.ok ⟨[("h2".data, ⟨1, [⟨"bpp".data, none⟩]⟩)]⟩) =
      if (buildFzfLines ⟨[("h1".data, ⟨0, [⟨"app".data, none⟩]⟩)]⟩).isEmpty
      then none
      else some (buildFzfLines ⟨[("h1".data, ⟨0, [⟨"app".data, none⟩]⟩)]⟩)) ∧
    (mainApps true false none none (some .sshSession)
        (some ⟨[("h1".data, ⟨0, [⟨"app".data, none⟩]⟩)]⟩)
        (.ok ⟨[("h2".data, ⟨1, [⟨"bpp".data, none⟩]⟩)]⟩)
        (.ok ⟨true, "app:h1".data⟩) (.ok ⟨true, []⟩)
        failingOracle).persistedFinal =
      some ⟨[("h2".data, ⟨1, [⟨"bpp".data, none⟩]⟩)]⟩ ∧
    (mainApps false false none none (some .sshSession)
        (some ⟨[("h1".data, ⟨0, [⟨"app".data, none⟩]⟩)]⟩)
        (.ok ⟨[("h2".data, ⟨1, [⟨"bpp".data, none⟩]⟩)]⟩)
        (.ok ⟨true, "app:h1".data⟩) (.ok ⟨true, []⟩)
        failingOracle).persistedFinal =
      some ⟨[("h1".data, ⟨0, [⟨"app".data, none⟩]⟩)]⟩ := by
  refine ⟨?_, ?_, ?_⟩
  · exact (C5_refresh_after_selection (some .sshSession)
      ⟨[("h1".data, ⟨0, [⟨"app".data, none⟩]⟩)]⟩
      ⟨[("h2".data, ⟨1, [⟨"bpp".data, none⟩]⟩)]⟩
      (.ok ⟨true, "app:h1".data⟩) (.ok ⟨true, []⟩) failingOracle).1
  · exact (C5_refresh_after_selection (some .sshSession)
      ⟨[("h1".data, ⟨0, [⟨"app".data, none⟩]⟩)]⟩
      ⟨[("h2".data, ⟨1, [⟨"bpp".data, none⟩]⟩)]⟩
      (.ok ⟨true, "app:h1".data⟩) (.ok ⟨true, []⟩) failingOracle).2.1
      ⟨true, false, ⟨"h1".data, "app".data⟩, .sshSession⟩ rfl
  · exact (C5_refresh_after_selection (some .sshSession)
      ⟨[("h1".data, ⟨0, [⟨"app".data, none⟩]⟩)]⟩
      ⟨[("h2".data, ⟨1, [⟨"bpp".data, none⟩]⟩)]⟩
      (.ok ⟨true, "app:h1".data⟩) (.ok ⟨true, []⟩) failingOracle).2.2 false

/--
C5 counterexample: the claim as stated is false.  With `refresh = true`, a
persisted snapshot present and host/app not pre-supplied, the candidate list
presented for interactive selection is rendered from the previously
persisted snapshot, not from the freshly discovered one.
-/
theorem C5_counterexample :
    (mainApps true false none none (some .sshSession)
      (some ⟨[("h1".data, ⟨0, [⟨"app".data, none⟩]⟩)]⟩)
      (.ok ⟨[("h1".data, ⟨1, [⟨"bpp".data, none⟩]⟩)]⟩)
      (.ok ⟨true, "app:h1".data⟩) (.ok ⟨true, []⟩)
      failingOracle).presentedLines =
      some (buildFzfLines ⟨[("h1".data, ⟨0, [⟨"app".data, none⟩]⟩)]⟩) ∧
    buildFzfLines ⟨[("h1".data, ⟨0, [⟨"app".data, none⟩]⟩)]⟩ ≠
      buildFzfLines ⟨[("h1".data, ⟨1, [⟨"bpp".data, none⟩]⟩)]⟩ :=
  ⟨rfl, by decide⟩

/-! ## Discovery lemmas (`btInsert`/`btLookup`/`runDiscovery`) -/

theorem btLookup_insert_self (k : Str) (v : ServerEntry)
    (l : List (Str × ServerEntry)) : btLookup k (btInsert k v l) = some v := by
  induction l with
  | nil => simp [btInsert, btLookup]
  | cons p rest ih =>
    obtain ⟨k', v'⟩ := p
    by_cases h1 : strLt k k'
    · simp [btInsert, h1, btLookup]
    · by_cases h2 : k = k'
      · subst h2
        simp [btInsert, h1, btLookup]
      · simp [btInsert, h1, h2, btLookup, ih]

theorem btLookup_insert_ne (k0 k : Str) (v : ServerEntry)
    (l : List (Str × ServerEntry)) (hne : k0 ≠ k) :
    btLookup k0 (btInsert k v l) = btLookup k0 l := by
  induction l with
  | nil => simp [btInsert, btLookup, hne]
  | cons p rest ih =>
    obtain ⟨k', v'⟩ := p
    by_cases h1 : strLt k k'
    · simp [btInsert, h1, btLookup, hne]
    · by_cases h2 : k = k'
      · subst h2
        simp [btInsert, h1, btLookup, hne]
      · simp [btInsert, h1, h2, btLookup, ih]

/-- The final map of the probe loop: a host's entry is the probe result of
its last declaration; hosts never probed keep their accumulator binding. -/
theorem runDiscovery_lookup (probe : Nat → ProcOutcome) (now : Nat → Int) :
    ∀ (hosts : List Str) (i : Nat) (acc : List (Str × ServerEntry)) (h : Str),
      btLookup h (runDiscovery probe now hosts i acc).1 =
        match probeIndexOf hosts i h with
        | some j => some ⟨now j, fetchDataFolders (probe j)⟩
        | none => btLookup h acc := by
  intro hosts
  induction hosts with
  | nil => intro i acc h; rfl
  | cons host rest ih =>
    intro i acc h
    by_cases he : host.isEmpty
    · simp only [runDiscovery, probeIndexOf, he, if_true]
      exact ih i acc h
    · simp only [runDiscovery, probeIndexOf, he, if_false, Bool.false_eq_true]
      rw [ih (i + 1) _ h]
      cases hpi : probeIndexOf rest (i + 1) h with
      | some j => rfl
      | none =>
        by_cases hh : host = h
        · subst hh
          simp [btLookup_insert_self]
        · have hne : h ≠ host := fun e => hh e.symm
          simp [hh, btLookup_insert_ne h host _ _ hne]

/-- Every non-empty declaration is probed, once per occurrence, in file
order. -/
theorem runDiscovery_probed (probe : Nat → ProcOutcome) (now : Nat → Int) :
    ∀ (hosts : List Str) (i : Nat) (acc : List (Str × ServerEntry)),
      (runDiscovery probe now hosts i acc).2 =
        hosts.filter (fun h => !h.isEmpty) := by
  intro hosts
  induction hosts with
  | nil => intro i acc; rfl
  | cons host rest ih =>
    intro i acc
    by_cases he : host.isEmpty
    · simp only [runDiscovery, he, if_true, List.filter]
      rw [ih i acc]
      simp [he]
    · simp only [runDiscovery, he, if_false, Bool.false_eq_true, List.filter]
      rw [ih (i + 1) _]
      simp [he]

/-- A non-empty host occurring in the list has a probe index. -/
theorem probeIndexOf_isSome (h : Str) (hne : h.isEmpty = false) :
    ∀ (hosts : List Str) (i : Nat), h ∈ hosts →
      (probeIndexOf hosts i h).isSome := by
  intro hosts
  induction hosts with
  | nil => intro i hm; cases hm
  | cons host rest ih =>
    intro i hm
    simp only [probeIndexOf]
    by_cases he : host.isEmpty
    · rcases List.mem_cons.mp hm with rfl | hm2
      · rw [he] at hne; cases hne
      · simp only [he, if_true]
        exact ih i hm2
    · simp only [he, if_false, Bool.false_eq_true]
      cases hpi : probeIndexOf rest (i + 1) h with
      | some j => simp
      | none =>
        rcases List.mem_cons.mp hm with rfl | hm2
        · simp
        · have := ih (i + 1) hm2
          rw [hpi] at this
          cases this

/-! ## Claim C8 -/

/--
C8: a failed host probe (spawn failure or non-zero exit) contributes an
empty folder list; `fetch_servers_cache` never errors once the host list is
read, and every probed (non-empty, non-ignored) host — failing or not — gets
an entry whose `last_updated` is the clock value of its (last) probe and
whose folders are that probe's (possibly empty) result.
-/
theorem C8_failed_probe_absorbed (cfg : Str) (ignoreHosts : List Str)
    (probe : Nat → ProcOutcome) (now : Nat → Int) (h : Str)
    (hmem : h ∈ (readSshHostsFromContents cfg).filter
      (fun x => !ignoreHosts.contains x))
    (hne : h.isEmpty = false) :
    (∀ e, fetchDataFolders (.error e) = []) ∧
    (∀ res : ProcResult, res.success = false →
      fetchDataFolders (.ok res) = []) ∧
    ∃ cache probed j,
      fetchServersCache (.ok cfg) ignoreHosts probe now = .ok (cache, probed) ∧
      probeIndexOf ((readSshHostsFromContents cfg).filter
        (fun x => !ignoreHosts.contains x)) 0 h = some j ∧
      btLookup h cache.servers =
        some ⟨now j, fetchDataFolders (probe j)⟩ := by
  refine ⟨fun e => rfl, fun res hr => by simp [fetchDataFolders, hr], ?_⟩
  have hsome := probeIndexOf_isSome h hne
    ((readSshHostsFromContents cfg).filter (fun x => !ignoreHosts.contains x))
    0 hmem
  obtain ⟨j, hj⟩ := Option.isSome_iff_exists.mp hsome
  refine ⟨⟨(runDiscovery probe now ((readSshHostsFromContents cfg).filter
      (fun x => !ignoreHosts.contains x)) 0 []).1⟩,
    (runDiscovery probe now ((readSshHostsFromContents cfg).filter
      (fun x => !ignoreHosts.contains x)) 0 []).2, j, rfl, hj, ?_⟩
  show btLookup h (runDiscovery probe now _ 0 []).1 = _
  rw [runDiscovery_lookup probe now _ 0 [] h, hj]

/--
C8 witness: two hosts; the probe of `a` fails to even launch, the probe of
`b` succeeds; `a` still receives an entry with empty folders and its probe
time, and the refresh of `b` is unaffected.
-/
theorem C8_failed_probe_absorbed_witness :
    (∀ e, fetchDataFolders (.error e) = []) ∧
    (∀ res : ProcResult, res.success = false →
      fetchDataFolders (.ok res) = []) ∧
    ∃ cache probed j,
      fetchServersCache (.ok "Host a\nHost b".data) []
        (fun i => if i = 0 then .error "unreachable".data
                  else .ok ⟨true, "x\n".data⟩)
        (fun i => (i : Int) + 100) = .ok (cache, probed) ∧
      probeIndexOf ((readSshHostsFromContents "Host a\nHost b".data).filter
        (fun x => !([] : List Str).contains x)) 0 "a".data = some j ∧
      btLookup "a".data cache.servers =
        some ⟨(j : Int) + 100,
          fetchDataFolders (if j = 0 then .error "unreachable".data
                            else .ok ⟨true, "x\n".data⟩)⟩ :=
  C8_failed_probe_absorbed "Host a\nHost b".data []
    (fun i => if i = 0 then .error "unreachable".data
              else .ok ⟨true, "x\n".data⟩)
    (fun i => (i : Int) + 100) "a".data (by decide) (by decide)

theorem rustLinesGo_line :
    ∀ (l : Str), '\n' ∉ l → ∀ (cur rest : Str),
      rustLinesGo cur (l ++ '\n' :: rest) =
        dropTrailingCr (cur.reverse ++ l) :: rustLinesGo [] rest := by
  intro l
  induction l with
  | nil =>
    intro _ cur rest
    simp [rustLinesGo]
  | cons c cs ih =>
    intro hl cur rest
    have hc : c ≠ '\n' := fun h => hl (h ▸ List.mem_cons_self c cs)
    have hcs : '\n' ∉ cs := fun h => hl (List.mem_cons_of_mem _ h)
    simp only [List.cons_append, rustLinesGo, if_neg hc]
    show rustLinesGo (c :: cur) (cs ++ '\n' :: rest) =
      dropTrailingCr (cur.reverse ++ c :: cs) :: rustLinesGo [] rest
    rw [ih hcs (c :: cur) rest]
    simp

theorem dropTrailingCr_eq (l : Str) (h : l.getLast? ≠ some '\r') :
    dropTrailingCr l = l := by
  unfold dropTrailingCr
  split
  · rename_i r hrev
    exact absurd (by rw [← List.head?_reverse, hrev]; rfl) h
  · rfl

theorem rustLines_joinNl :
    ∀ (ls : List Str), (∀ l ∈ ls, '\n' ∉ l ∧ l.getLast? ≠ some '\r') →
      rustLines (joinNl ls) = ls := by
  intro ls
  induction ls with
  | nil => intro _; rfl
  | cons l rest ih =>
    intro hall
    obtain ⟨hnl, hcr⟩ := hall l (List.mem_cons_self l rest)
    show rustLinesGo [] (l ++ '\n' :: joinNl rest) = l :: rest
    rw [rustLinesGo_line l hnl [] (joinNl rest)]
    simp only [List.reverse_nil, List.nil_append]
    rw [dropTrailingCr_eq l hcr]
    exact congrArg (l :: ·)
      (ih fun x hx => hall x (List.mem_cons_of_mem _ hx))

/--
C9 (amended): over any newline-free, `\r`-free host-declaration lines, host
enumeration contributes — per line, in file order, without deduplication —
the second whitespace-delimited token of exactly the trimmed lines beginning
with the five characters `Host ` (`Host` followed by a *space*; `Host`
followed by any other whitespace such as a tab contributes nothing, which is
where the claim as stated fails).  A host declared several times is probed
once per declaration, and the entry of its last probe wins in the resulting
map.
-/
theorem C9_host_lines_amended :
    (∀ ls : List Str, (∀ l ∈ ls, '\n' ∉ l ∧ l.getLast? ≠ some '\r') →
      readSshHostsFromContents (joinNl ls) = ls.filterMap hostOfLine) ∧
    (∀ (l rest : Str), rustTrim l = 'H' :: 'o' :: 's' :: 't' :: '\t' :: rest →
      hostOfLine l = none) ∧
    (∀ (probe : Nat → ProcOutcome) (now : Nat → Int) (hosts : List Str),
      (runDiscovery probe now hosts 0 []).2 =
        hosts.filter (fun h => !h.isEmpty)) ∧
    (∀ (probe : Nat → ProcOutcome) (now : Nat → Int) (hosts : List Str)
       (h : Str),
      btLookup h (runDiscovery probe now hosts 0 []).1 =
        match probeIndexOf hosts 0 h with
        | some j => some ⟨now j, fetchDataFolders (probe j)⟩
        | none => none) := by
  refine ⟨?_, ?_, ?_, ?_⟩
  · intro ls hall
    unfold readSshHostsFromContents
    rw [rustLines_joinNl ls hall]
  · intro l rest hre
    unfold hostOfLine
    rw [hre]
    rfl
  · intro probe now hosts
    exact runDiscovery_probed probe now hosts 0 []
  · intro probe now hosts h
    exact runDiscovery_lookup probe now hosts 0 [] h

/--
C9 witness: a config with a duplicated declaration and an unrelated line;
the duplicate is probed twice and the second probe (index 1) wins.
-/
theorem C9_host_lines_amended_witness :
    readSshHostsFromContents
        (joinNl ["Host a".data, "Port 22".data, "Host a".data]) =
      ["a".data, "a".data] ∧
    hostOfLine ('H' :: 'o' :: 's' :: 't' :: '\t' :: 'x' :: []) = none ∧
    (runDiscovery (fun _ => .ok ⟨true, []⟩) (fun i => (i : Int))
        ["a".data, "a".data] 0 []).2 = ["a".data, "a".data] ∧
    btLookup "a".data (runDiscovery (fun _ => .ok ⟨true, []⟩)
        (fun i => (i : Int)) ["a".data, "a".data] 0 []).1 =
      some ⟨1, []⟩ := by
  refine ⟨?_, ?_, ?_, ?_⟩
  · exact C9_host_lines_amended.1
      ["Host a".data, "Port 22".data, "Host a".data] (by decide)
  · exact C9_host_lines_amended.2.1 ('H' :: 'o' :: 's' :: 't' :: '\t' :: 'x' :: [])
      ('x' :: []) rfl
  · exact C9_host_lines_amended.2.2.1 (fun _ => .ok ⟨true, []⟩)
      (fun i => (i : Int)) ["a".data, "a".data]
  · exact C9_host_lines_amended.2.2.2 (fun _ => .ok ⟨true, []⟩)
      (fun i => (i : Int)) ["a".data, "a".data] "a".data

/--
C9 counterexample: the claim as stated is false.  The trimmed line
`Host<TAB>foo` begins with the token `Host` followed by whitespace and has
second whitespace-delimited token `foo`, yet `read_ssh_hosts` contributes
nothing for it, because the code tests `starts_with("Host ")` with a literal
space.
-/
theorem C9_counterexample :
    readSshHostsFromContents
        ('H' :: 'o' :: 's' :: 't' :: '\t' :: 'f' :: 'o' :: 'o' :: []) = [] ∧
    (splitWhitespace (rustTrim
        ('H' :: 'o' :: 's' :: 't' :: '\t' :: 'f' :: 'o' :: 'o' :: [])))[1]? =
      some "foo".data ∧
    isUniWhitespace '\t' = true ∧
    rustTrim ('H' :: 'o' :: 's' :: 't' :: '\t' :: 'f' :: 'o' :: 'o' :: []) =
      'H' :: 'o' :: 's' :: 't' :: '\t' :: 'f' :: 'o' :: 'o' :: [] :=
  ⟨rfl, rfl, rfl, rfl⟩

/-! ## Claim C10 -/

/--
C10: resolving the hosted URL looks up `LETSENCRYPT_HOST` in the
`environment` of the service `identifier`, accepting both a mapping-form
environment block and a sequence of `KEY=VALUE` strings (first matching key
wins, split at the first `=`); if the `services` section, the service, its
`environment` block, or the key is absent at any level, the lookup yields no
value and the HostedUrl arm completes successfully printing nothing —
absence is never an error.
-/
theorem C10_hosted_url_env_lookup :
    (∀ (doc svcs svc envm : List (Yaml × Yaml)) (v : Str),
      yamlMapGet "services".data doc = some (.mapV svcs) →
      yamlMapGet "identifier".data svcs = some (.mapV svc) →
      yamlMapGet "environment".data svc = some (.mapV envm) →
      yamlMapGet "LETSENCRYPT_HOST".data envm = some (.strV v) →
      getEnv (.mapV doc) "identifier".data "LETSENCRYPT_HOST".data = some v ∧
      hostedUrlStep (.mapV doc) = .ok (some ("https://".data ++ v))) ∧
    (∀ (doc svcs svc : List (Yaml × Yaml)) (items : List Yaml) (v : Str),
      yamlMapGet "services".data doc = some (.mapV svcs) →
      yamlMapGet "identifier".data svcs = some (.mapV svc) →
      yamlMapGet "environment".data svc = some (.seqV items) →
      envSeqFind "LETSENCRYPT_HOST".data (items.filterMap yamlAsStr) = some v →
      getEnv (.mapV doc) "identifier".data "LETSENCRYPT_HOST".data = some v) ∧
    (∀ (v : Str) (rest : List Str), '=' ∉ "LETSENCRYPT_HOST".data →
      envSeqFind "LETSENCRYPT_HOST".data
        (("LETSENCRYPT_HOST".data ++ '=' :: v) :: rest) = some v) ∧
    (∀ doc : Yaml, yamlGet doc "services".data = none →
      getEnv doc "identifier".data "LETSENCRYPT_HOST".data = none) ∧
    (∀ (doc services : Yaml), yamlGet doc "services".data = some services →
      yamlGet services "identifier".data = none →
      getEnv doc "identifier".data "LETSENCRYPT_HOST".data = none) ∧
    (∀ (doc services svc : Yaml), yamlGet doc "services".data = some services →
      yamlGet services "identifier".data = some svc →
      yamlGet svc "environment".data = none →
      getEnv doc "identifier".data "LETSENCRYPT_HOST".data = none) ∧
    (∀ (doc services svc : Yaml) (envm : List (Yaml × Yaml)),
      yamlGet doc "services".data = some services →
      yamlGet services "identifier".data = some svc →
      yamlGet svc "environment".data = some (.mapV envm) →
      yamlMapGet "LETSENCRYPT_HOST".data envm = none →
      getEnv doc "identifier".data "LETSENCRYPT_HOST".data = none) ∧
    (∀ (doc services svc : Yaml) (items : List Yaml),
      yamlGet doc "services".data = some services →
      yamlGet services "identifier".data = some svc →
      yamlGet svc "environment".data = some (.seqV items) →
      envSeqFind "LETSENCRYPT_HOST".data (items.filterMap yamlAsStr) = none →
      getEnv doc "identifier".data "LETSENCRYPT_HOST".data = none) ∧
    (∀ doc : Yaml,
      getEnv doc "identifier".data "LETSENCRYPT_HOST".data = none →
      hostedUrlStep doc = .ok none) := by
  refine ⟨?_, ?_, ?_, ?_, ?_, ?_, ?_, ?_, ?_⟩
  · intro doc svcs svc envm v h1 h2 h3 h4
    constructor
    · simp [getEnv, yamlGet, h1, h2, h3, h4, yamlAsStr]
    · simp [hostedUrlStep, getEnv, yamlGet, h1, h2, h3, h4, yamlAsStr]
  · intro doc svcs svc items v h1 h2 h3 h4
    simp [getEnv, yamlGet, h1, h2, h3, h4]
  · intro v rest hk
    simp only [envSeqFind, splitOnce_append '=' "LETSENCRYPT_HOST".data v hk]
    rfl
  · intro doc h1
    simp [getEnv, h1]
  · intro doc services h1 h2
    simp [getEnv, h1, h2]
  · intro doc services svc h1 h2 h3
    simp [getEnv, h1, h2, h3]
  · intro doc services svc envm h1 h2 h3 h4
    simp [getEnv, h1, h2, h3, h4]
  · intro doc services svc items h1 h2 h3 h4
    simp [getEnv, h1, h2, h3, h4]
  · intro doc hget
    simp [hostedUrlStep, hget]

/--
C10 witness: a mapping-form document with the key present, a sequence-form
entry, and the empty document for the absence path.
-/
theorem C10_hosted_url_env_lookup_witness :
    getEnv (.mapV [(.strV "services".data, .mapV [(.strV "identifier".data,
        .mapV [(.strV "environment".data, .mapV [(.strV "LETSENCRYPT_HOST".data,
        .strV "example.org".data)])])])])
      "identifier".data "LETSENCRYPT_HOST".data = some "example.org".data ∧
    envSeqFind "LETSENCRYPT_HOST".data
      (("LETSENCRYPT_HOST".data ++ '=' :: "example.org".data) ::
        ["FOO=bar".data]) = some "example.org".data ∧
    getEnv .nullV "identifier".data "LETSENCRYPT_HOST".data = none ∧
    hostedUrlStep .nullV = .ok none := by
  refine ⟨?_, ?_, ?_, ?_⟩
  · exact (C10_hosted_url_env_lookup.1
      [(.strV "services".data, .mapV [(.strV "identifier".data,
        .mapV [(.strV "environment".data, .mapV [(.strV "LETSENCRYPT_HOST".data,
        .strV "example.org".data)])])])]
      [(.strV "identifier".data, .mapV [(.strV "environment".data,
        .mapV [(.strV "LETSENCRYPT_HOST".data, .strV "example.org".data)])])]
      [(.strV "environment".data, .mapV [(.strV "LETSENCRYPT_HOST".data,
        .strV "example.org".data)])]
      [(.strV "LETSENCRYPT_HOST".data, .strV "example.org".data)]
      "example.org".data rfl rfl rfl rfl).1
  · exact C10_hosted_url_env_lookup.2.2.1 "example.org".data
      ["FOO=bar".data] (by decide)
  · exact C10_hosted_url_env_lookup.2.2.2.1 .nullV rfl
  · exact C10_hosted_url_env_lookup.2.2.2.2.2.2.2.2 .nullV rfl

/-! ## Round-trip lemmas: integers -/

theorem digitChar_spec (d : Nat) (hd : d < 10) :
    (digitChar d).isDigit = true ∧ (digitChar d).toNat = '0'.toNat + d ∧
    digitChar d ≠ '-' ∧ digitChar d ≠ '\n' ∧ digitChar d ≠ '\r' := by
  interval_cases d <;> exact ⟨rfl, rfl, by decide, by decide, by decide⟩

theorem natToCharsAux_spec :
    ∀ (fuel n : Nat), n < fuel →
      natToCharsAux fuel n ≠ [] ∧
      (natToCharsAux fuel n).all Char.isDigit = true ∧
      (natToCharsAux fuel n).foldl
        (fun acc c => acc * 10 + (c.toNat - '0'.toNat)) 0 = n := by
  intro fuel
  induction fuel with
  | zero => intro n h; omega
  | succ f ih =>
    intro n h
    by_cases h10 : n < 10
    · simp only [natToCharsAux, if_pos h10]
      have hd := digitChar_spec n h10
      refine ⟨by simp, by simp [hd.1], ?_⟩
      simp only [List.foldl_cons, List.foldl_nil, Nat.zero_mul, Nat.zero_add]
      rw [hd.2.1]
      omega
    · simp only [natToCharsAux, if_neg h10]
      have hdiv : n / 10 < n := Nat.div_lt_self (by omega) (by omega)
      obtain ⟨h1, h2, h3⟩ := ih (n / 10) (by omega)
      have hd := digitChar_spec (n % 10) (Nat.mod_lt _ (by omega))
      refine ⟨by simp, ?_, ?_⟩
      · rw [List.all_append, h2]
        simp [hd.1]
      · rw [List.foldl_append, h3]
        simp only [List.foldl_cons, List.foldl_nil]
        rw [hd.2.1]
        omega

theorem parseNatDigits_natToChars (n : Nat) :
    parseNatDigits (natToChars n) = some n := by
  obtain ⟨h1, h2, h3⟩ := natToCharsAux_spec (n + 1) n (by omega)
  rw [show natToCharsAux (n + 1) n = natToChars n from rfl] at h1 h2 h3
  have hemp : (natToChars n).isEmpty = false := by
    cases hs : natToChars n with
    | nil => exact absurd hs h1
    | cons c cs => rfl
  unfold parseNatDigits
  rw [hemp, h2, h3]
  rfl

theorem natToChars_head_digit (n : Nat) {c : Char} {cs : Str}
    (hs : natToChars n = c :: cs) : c.isDigit = true := by
  obtain ⟨_, h2, _⟩ := natToCharsAux_spec (n + 1) n (by omega)
  rw [show natToCharsAux (n + 1) n = natToChars n from rfl, hs] at h2
  exact List.all_eq_true.mp h2 c (List.mem_cons_self c cs)

theorem parseInt_intToChars (i : Int) : parseInt (intToChars i) = some i := by
  unfold intToChars
  by_cases hneg : i < 0
  · rw [if_pos hneg]
    show (parseNatDigits (natToChars (-i).toNat)).map (fun n => -(n : Int)) =
      some i
    rw [parseNatDigits_natToChars]
    show some (-(((-i).toNat : Nat) : Int)) = some i
    have hi : -((((-i).toNat : Nat)) : Int) = i := by omega
    rw [hi]
  · rw [if_neg hneg]
    cases hs : natToChars i.toNat with
    | nil =>
      exact absurd hs (natToCharsAux_spec (i.toNat + 1) i.toNat (by omega)).1
    | cons c cs =>
      have hcd := natToChars_head_digit i.toNat hs
      have hcne : c ≠ '-' := by
        intro h
        rw [h] at hcd
        simp at hcd
      show (if c = '-' then (parseNatDigits cs).map fun n => -(n : Int)
            else (parseNatDigits (c :: cs)).map fun n => (n : Int)) = some i
      rw [if_neg hcne, ← hs, parseNatDigits_natToChars]
      show some (((i.toNat : Nat) : Int)) = some i
      have hi : (((i.toNat : Nat)) : Int) = i := by omega
      rw [hi]

/-! ## Round-trip lemmas: strings and keys -/

theorem hexVal_hexDigit (d : Nat) (hd : d < 16) : hexVal (hexDigit d) = some d := by
  interval_cases d <;> decide

/-- Unescaping a `\uXXXX` escape recovers the code point. -/
theorem unescapeFuel_u (trail : Str) (f : Nat) (v : Nat) (hv : v < 65536)
    (T : Str) :
    unescapeFuel trail (f + 1) ('\\' :: 'u' :: (hex4 v ++ T)) =
      (unescapeFuel trail f T).map (Char.ofNat v :: ·) := by
  rw [show unescapeFuel trail (f + 1) ('\\' :: 'u' :: (hex4 v ++ T)) =
      (match hexVal (hexDigit (v / 4096 % 16)), hexVal (hexDigit (v / 256 % 16)),
             hexVal (hexDigit (v / 16 % 16)), hexVal (hexDigit (v % 16)) with
       | some a, some b, some c2, some d =>
         (unescapeFuel trail f T).map
           (Char.ofNat (a * 4096 + b * 256 + c2 * 16 + d) :: ·)
       | _, _, _, _ => none) from rfl]
  rw [hexVal_hexDigit (v / 4096 % 16) (Nat.mod_lt _ (by omega)),
      hexVal_hexDigit (v / 256 % 16) (Nat.mod_lt _ (by omega)),
      hexVal_hexDigit (v / 16 % 16) (Nat.mod_lt _ (by omega)),
      hexVal_hexDigit (v % 16) (Nat.mod_lt _ (by omega))]
  show (unescapeFuel trail f T).map
    (Char.ofNat (v / 4096 % 16 * 4096 + v / 256 % 16 * 256 + v / 16 % 16 * 16 +
      v % 16) :: ·) = _
  have harith : v / 4096 % 16 * 4096 + v / 256 % 16 * 256 + v / 16 % 16 * 16 +
      v % 16 = v := by omega
  rw [harith]

theorem unescape_escape (trail : Str) :
    ∀ (s : Str) (fuel : Nat), (escapeStr s).length < fuel →
      unescapeFuel trail fuel (escapeStr s ++ '"' :: trail) = some s := by
  intro s
  induction s with
  | nil =>
    intro fuel hf
    cases fuel with
    | zero => exact absurd hf (Nat.not_lt_zero _)
    | succ f =>
      show unescapeFuel trail (f + 1) ('"' :: trail) = some []
      simp [unescapeFuel]
  | cons c cs ih =>
    intro fuel hf
    have hsplit : escapeStr (c :: cs) = escapeChar c ++ escapeStr cs := rfl
    by_cases h1 : c = '"'
    · subst h1
      cases fuel with
      | zero => exact absurd hf (Nat.not_lt_zero _)
      | succ f =>
        have hlen : (escapeStr cs).length < f := by
          rw [hsplit] at hf
          simp [escapeChar] at hf
          omega
        show unescapeFuel trail (f + 1)
          ('\\' :: '"' :: (escapeStr cs ++ '"' :: trail)) = some ('"' :: cs)
        rw [show unescapeFuel trail (f + 1)
            ('\\' :: '"' :: (escapeStr cs ++ '"' :: trail)) =
            (unescapeFuel trail f (escapeStr cs ++ '"' :: trail)).map ('"' :: ·)
          from rfl, ih f hlen]
        rfl
    · by_cases h2 : c = '\\'
      · subst h2
        cases fuel with
        | zero => exact absurd hf (Nat.not_lt_zero _)
        | succ f =>
          have hlen : (escapeStr cs).length < f := by
            rw [hsplit] at hf
            simp [escapeChar] at hf
            omega
          show unescapeFuel trail (f + 1)
            ('\\' :: '\\' :: (escapeStr cs ++ '"' :: trail)) = some ('\\' :: cs)
          rw [show unescapeFuel trail (f + 1)
              ('\\' :: '\\' :: (escapeStr cs ++ '"' :: trail)) =
              (unescapeFuel trail f (escapeStr cs ++ '"' :: trail)).map
                ('\\' :: ·) from rfl, ih f hlen]
          rfl
      · by_cases h3 : c = '\x08'
        · subst h3
          cases fuel with
          | zero => exact absurd hf (Nat.not_lt_zero _)
          | succ f =>
            have hlen : (escapeStr cs).length < f := by
              rw [hsplit] at hf
              simp [escapeChar] at hf
              omega
            show unescapeFuel trail (f + 1)
              ('\\' :: 'b' :: (escapeStr cs ++ '"' :: trail)) =
              some ('\x08' :: cs)
            rw [show unescapeFuel trail (f + 1)
                ('\\' :: 'b' :: (escapeStr cs ++ '"' :: trail)) =
                (unescapeFuel trail f (escapeStr cs ++ '"' :: trail)).map
                  ('\x08' :: ·) from rfl, ih f hlen]
            rfl
        · by_cases h4 : c = '\t'
          · subst h4
            cases fuel with
            | zero => exact absurd hf (Nat.not_lt_zero _)
            | succ f =>
              have hlen : (escapeStr cs).length < f := by
                rw [hsplit] at hf
                simp [escapeChar] at hf
                omega
              show unescapeFuel trail (f + 1)
                ('\\' :: 't' :: (escapeStr cs ++ '"' :: trail)) =
                some ('\t' :: cs)
              rw [show unescapeFuel trail (f + 1)
                  ('\\' :: 't' :: (escapeStr cs ++ '"' :: trail)) =
                  (unescapeFuel trail f (escapeStr cs ++ '"' :: trail)).map
                    ('\t' :: ·) from rfl, ih f hlen]
              rfl
          · by_cases h5 : c = '\n'
            · subst h5
              cases fuel with
              | zero => exact absurd hf (Nat.not_lt_zero _)
              | succ f =>
                have hlen : (escapeStr cs).length < f := by
                  rw [hsplit] at hf
                  simp [escapeChar] at hf
                  omega
                show unescapeFuel trail (f + 1)
                  ('\\' :: 'n' :: (escapeStr cs ++ '"' :: trail)) =
                  some ('\n' :: cs)
                rw [show unescapeFuel trail (f + 1)
                    ('\\' :: 'n' :: (escapeStr cs ++ '"' :: trail)) =
                    (unescapeFuel trail f (escapeStr cs ++ '"' :: trail)).map
                      ('\n' :: ·) from rfl, ih f hlen]
                rfl
            · by_cases h6 : c = '\x0c'
              · subst h6
                cases fuel with
                | zero => exact absurd hf (Nat.not_lt_zero _)
                | succ f =>
                  have hlen : (escapeStr cs).length < f := by
                    rw [hsplit] at hf
                    simp [escapeChar] at hf
                    omega
                  show unescapeFuel trail (f + 1)
                    ('\\' :: 'f' :: (escapeStr cs ++ '"' :: trail)) =
                    some ('\x0c' :: cs)
                  rw [show unescapeFuel trail (f + 1)
                      ('\\' :: 'f' :: (escapeStr cs ++ '"' :: trail)) =
                      (unescapeFuel trail f (escapeStr cs ++ '"' :: trail)).map
                        ('\x0c' :: ·) from rfl, ih f hlen]
                  rfl
              · by_cases h7 : c = '\r'
                · subst h7
                  cases fuel with
                  | zero => exact absurd hf (Nat.not_lt_zero _)
                  | succ f =>
                    have hlen : (escapeStr cs).length < f := by
                      rw [hsplit] at hf
                      simp [escapeChar] at hf
                      omega
                    show unescapeFuel trail (f + 1)
                      ('\\' :: 'r' :: (escapeStr cs ++ '"' :: trail)) =
                      some ('\r' :: cs)
                    rw [show unescapeFuel trail (f + 1)
                        ('\\' :: 'r' :: (escapeStr cs ++ '"' :: trail)) =
                        (unescapeFuel trail f
                          (escapeStr cs ++ '"' :: trail)).map ('\r' :: ·)
                      from rfl, ih f hlen]
                    rfl
                · by_cases h8 : (decide (c.toNat < 0x20) ||
                      decide (c.toNat = 0x7f)) = true
                  · have he : escapeChar c = '\\' :: 'u' :: hex4 c.toNat := by
                      unfold escapeChar
                      rw [if_neg h1, if_neg h2, if_neg h3, if_neg h4, if_neg h5,
                        if_neg h6, if_neg h7, if_pos h8]
                    cases fuel with
                    | zero => exact absurd hf (Nat.not_lt_zero _)
                    | succ f =>
                      have hlen : (escapeStr cs).length < f := by
                        rw [hsplit, he] at hf
                        simp [hex4] at hf
                        omega
                      have hv : c.toNat < 65536 := by
                        simp only [Bool.or_eq_true, decide_eq_true_eq] at h8
                        omega
                      rw [show escapeStr (c :: cs) ++ '"' :: trail =
                          '\\' :: 'u' ::
                            (hex4 c.toNat ++ (escapeStr cs ++ '"' :: trail))
                        from by rw [hsplit, he]; simp [hex4]]
                      rw [unescapeFuel_u trail f c.toNat hv _, ih f hlen,
                        Char.ofNat_toNat]
                      rfl
                  · have he : escapeChar c = [c] := by
                      unfold escapeChar
                      rw [if_neg h1, if_neg h2, if_neg h3, if_neg h4, if_neg h5,
                        if_neg h6, if_neg h7, if_neg (by simpa using h8)]
                    cases fuel with
                    | zero => exact absurd hf (Nat.not_lt_zero _)
                    | succ f =>
                      have hlen : (escapeStr cs).length < f := by
                        rw [hsplit, he] at hf
                        simp at hf
                        omega
                      rw [show escapeStr (c :: cs) ++ '"' :: trail =
                          c :: (escapeStr cs ++ '"' :: trail)
                        from by rw [hsplit, he]; simp]
                      simp only [unescapeFuel]
                      rw [if_neg h1, if_neg h2, ih f hlen]
                      rfl

theorem parseQuoted_quoteStr (s : Str) : parseQuoted (quoteStr s) = some s := by
  show unescapeFuel [] ((escapeStr s ++ ['"']).length + 1)
    (escapeStr s ++ ['"']) = some s
  rw [show (escapeStr s ++ ['"'] : Str) = escapeStr s ++ '"' :: [] from rfl]
  exact unescape_escape [] s _
    (by simp only [List.length_append, List.length_cons, List.length_nil]; omega)

theorem takeWhile_append_of_all (p : Char → Bool) :
    ∀ (k t : Str), k.all p = true →
      (∀ c, t.head? = some c → p c = false) →
      (k ++ t).takeWhile p = k := by
  intro k
  induction k with
  | nil =>
    intro t _ ht
    cases t with
    | nil => rfl
    | cons c ts =>
      show List.takeWhile p (c :: ts) = []
      simp [List.takeWhile_cons, ht c rfl]
  | cons a as ih =>
    intro t hall ht
    simp only [List.all_cons, Bool.and_eq_true] at hall
    show List.takeWhile p (a :: (as ++ t)) = a :: as
    simp [List.takeWhile_cons, hall.1, ih t hall.2 ht]

theorem parseKeyRepr_keyRepr (k : Str) (trail : Str) (c0 : Char) (rest0 : Str)
    (htrail : trail = c0 :: rest0) (hc0 : isBareKeyChar c0 = false) :
    parseKeyRepr trail (keyRepr k ++ trail) = some k := by
  have hhead : ∀ c, trail.head? = some c → isBareKeyChar c = false := by
    intro c hc
    rw [htrail] at hc
    injection hc with hc
    rw [← hc]
    exact hc0
  unfold keyRepr
  by_cases hb : (!k.isEmpty && k.all isBareKeyChar) = true
  · rw [if_pos hb]
    simp only [Bool.and_eq_true, Bool.not_eq_true'] at hb
    cases hk : k with
    | nil => rw [hk] at hb; exact absurd hb.1 (by simp)
    | cons a as =>
      rw [hk] at hb
      have ha : isBareKeyChar a = true := by
        have := hb.2
        simp only [List.all_cons, Bool.and_eq_true] at this
        exact this.1
      have haq : a ≠ '"' := by
        intro h
        rw [h] at ha
        simp [isBareKeyChar] at ha
      have htw : (a :: (as ++ trail)).takeWhile isBareKeyChar = a :: as := by
        show ((a :: as) ++ trail).takeWhile isBareKeyChar = a :: as
        exact takeWhile_append_of_all isBareKeyChar (a :: as) trail hb.2 hhead
      have hdr : (a :: (as ++ trail)).drop (a :: as).length = trail := by
        show ((a :: as) ++ trail).drop (a :: as).length = trail
        exact List.drop_left _ _
      show parseKeyRepr trail (a :: (as ++ trail)) = some (a :: as)
      have hred : parseKeyRepr trail (a :: (as ++ trail)) =
          (let k2 := List.takeWhile isBareKeyChar (a :: (as ++ trail))
           if k2.isEmpty = true then none
           else if List.drop k2.length (a :: (as ++ trail)) = trail then some k2
           else none) := by
        show (if a = '"' then
                unescapeFuel trail ((as ++ trail).length + 1) (as ++ trail)
              else
                let k2 := List.takeWhile isBareKeyChar (a :: (as ++ trail))
                if k2.isEmpty = true then none
                else if List.drop k2.length (a :: (as ++ trail)) = trail then
                  some k2
                else none) = _
        exact if_neg haq
      rw [hred]
      simp [htw, hdr]
  · rw [if_neg hb]
    show parseKeyRepr trail ('"' :: ((escapeStr k ++ ['"']) ++ trail)) = some k
    rw [show parseKeyRepr trail ('"' :: ((escapeStr k ++ ['"']) ++ trail)) =
        unescapeFuel trail (((escapeStr k ++ ['"']) ++ trail).length + 1)
          ((escapeStr k ++ ['"']) ++ trail) from rfl]
    rw [List.append_assoc]
    show unescapeFuel trail ((escapeStr k ++ (['"'] ++ trail)).length + 1)
      (escapeStr k ++ '"' :: trail) = some k
    exact unescape_escape trail k _
      (by simp only [List.length_append, List.length_cons]; omega)

theorem hexDigit_no_nl_cr (d : Nat) (hd : d < 16) :
    hexDigit d ≠ '\n' ∧ hexDigit d ≠ '\r' := by
  interval_cases d <;> exact ⟨by decide, by decide⟩

theorem strNoNlCr_of_all (l : Str)
    (h : l.all (fun x => !(x = '\n' : Bool) && !(x = '\r' : Bool)) = true) :
    strNoNlCr l := by
  intro x hx
  have hh := List.all_eq_true.mp h x hx
  simp only [Bool.and_eq_true, Bool.not_eq_true', decide_eq_false_iff_not] at hh
  exact hh

theorem escapeChar_no_nl_cr (c : Char) (x : Char) (hx : x ∈ escapeChar c) :
    x ≠ '\n' ∧ x ≠ '\r' := by
  unfold escapeChar at hx
  by_cases h1 : c = '"'
  · rw [if_pos h1] at hx
    exact strNoNlCr_of_all _ (by decide) x hx
  rw [if_neg h1] at hx
  by_cases h2 : c = '\\'
  · rw [if_pos h2] at hx
    exact strNoNlCr_of_all _ (by decide) x hx
  rw [if_neg h2] at hx
  by_cases h3 : c = '\x08'
  · rw [if_pos h3] at hx
    exact strNoNlCr_of_all _ (by decide) x hx
  rw [if_neg h3] at hx
  by_cases h4 : c = '\t'
  · rw [if_pos h4] at hx
    exact strNoNlCr_of_all _ (by decide) x hx
  rw [if_neg h4] at hx
  by_cases h5 : c = '\n'
  · rw [if_pos h5] at hx
    exact strNoNlCr_of_all _ (by decide) x hx
  rw [if_neg h5] at hx
  by_cases h6 : c = '\x0c'
  · rw [if_pos h6] at hx
    exact strNoNlCr_of_all _ (by decide) x hx
  rw [if_neg h6] at hx
  by_cases h7 : c = '\r'
  · rw [if_pos h7] at hx
    exact strNoNlCr_of_all _ (by decide) x hx
  rw [if_neg h7] at hx
  by_cases h8 : (decide (c.toNat < 0x20) || decide (c.toNat = 0x7f)) = true
  · rw [if_pos h8] at hx
    simp only [hex4, List.mem_cons, List.not_mem_nil, or_false] at hx
    rcases hx with rfl | rfl | rfl | rfl | rfl | rfl
    · exact ⟨by decide, by decide⟩
    · exact ⟨by decide, by decide⟩
    · exact hexDigit_no_nl_cr _ (Nat.mod_lt _ (by omega))
    · exact hexDigit_no_nl_cr _ (Nat.mod_lt _ (by omega))
    · exact hexDigit_no_nl_cr _ (Nat.mod_lt _ (by omega))
    · exact hexDigit_no_nl_cr _ (Nat.mod_lt _ (by omega))
  · rw [if_neg h8] at hx
    simp only [List.mem_singleton] at hx
    subst hx
    exact ⟨h5, h7⟩

theorem quoteStr_no_nl_cr (s : Str) : strNoNlCr (quoteStr s) := by
  intro x hx
  unfold quoteStr at hx
  rcases List.mem_cons.mp hx with rfl | hx
  · exact ⟨by decide, by decide⟩
  rcases List.mem_append.mp hx with hx | hx
  · obtain ⟨c, _, hc⟩ := List.mem_flatMap.mp hx
    exact escapeChar_no_nl_cr c x hc
  · simp only [List.mem_singleton] at hx
    subst hx
    exact ⟨by decide, by decide⟩

theorem keyRepr_no_nl_cr (k : Str) : strNoNlCr (keyRepr k) := by
  intro x hx
  unfold keyRepr at hx
  by_cases hb : (!k.isEmpty && k.all isBareKeyChar) = true
  · rw [if_pos hb] at hx
    have hbare : isBareKeyChar x = true :=
      List.all_eq_true.mp (Bool.and_eq_true_iff.mp hb).2 x hx
    constructor
    · intro h
      rw [h] at hbare
      simp [isBareKeyChar] at hbare
    · intro h
      rw [h] at hbare
      simp [isBareKeyChar] at hbare
  · rw [if_neg hb] at hx
    exact quoteStr_no_nl_cr k x hx

theorem intToChars_no_nl_cr (i : Int) : strNoNlCr (intToChars i) := by
  have hnat : ∀ n : Nat, strNoNlCr (natToChars n) := by
    intro n x hx
    have hd : x.isDigit = true :=
      List.all_eq_true.mp (natToCharsAux_spec (n + 1) n (by omega)).2.1 x hx
    constructor
    · intro h
      rw [h] at hd
      simp at hd
    · intro h
      rw [h] at hd
      simp at hd
  intro x hx
  unfold intToChars at hx
  by_cases hneg : i < 0
  · rw [if_pos hneg] at hx
    rcases List.mem_cons.mp hx with rfl | hx
    · exact ⟨by decide, by decide⟩
    · exact hnat _ x hx
  · rw [if_neg hneg] at hx
    exact hnat _ x hx

theorem strNoNlCr_append {a b : Str} (ha : strNoNlCr a) (hb : strNoNlCr b) :
    strNoNlCr (a ++ b) := by
  intro x hx
  rcases List.mem_append.mp hx with hx | hx
  · exact ha x hx
  · exact hb x hx

/-- Lines of `printFolder` are newline- and CR-free. -/
theorem printFolder_lines (k : Str) (f : DataFolder) :
    ∀ l ∈ printFolder k f, strNoNlCr l := by
  have hhdr : strNoNlCr
      ("[[servers.".data ++ (keyRepr k ++ ".data_folders]]".data)) :=
    strNoNlCr_append (strNoNlCr_of_all _ (by decide))
      (strNoNlCr_append (keyRepr_no_nl_cr k) (strNoNlCr_of_all _ (by decide)))
  have hpath : strNoNlCr ("path = ".data ++ quoteStr f.path) :=
    strNoNlCr_append (strNoNlCr_of_all _ (by decide)) (quoteStr_no_nl_cr f.path)
  intro l hl
  unfold printFolder at hl
  cases hc : f.container with
  | none =>
    rw [hc] at hl
    simp only [List.append_nil, List.mem_cons, List.not_mem_nil, or_false] at hl
    rcases hl with rfl | rfl
    · exact hhdr
    · exact hpath
  | some c =>
    rw [hc] at hl
    simp only [List.mem_append, List.mem_cons, List.not_mem_nil, or_false] at hl
    rcases hl with (rfl | rfl) | rfl
    · exact hhdr
    · exact hpath
    · exact strNoNlCr_append (strNoNlCr_of_all _ (by decide))
        (quoteStr_no_nl_cr c)

/-- Lines of `printEntry` are newline- and CR-free. -/
theorem printEntry_lines (k : Str) (e : ServerEntry) :
    ∀ l ∈ printEntry k e, strNoNlCr l := by
  intro l hl
  unfold printEntry at hl
  rcases List.mem_append.mp hl with hl | hl
  · rcases List.mem_append.mp hl with hl | hl
    · simp only [List.mem_cons, List.not_mem_nil, or_false] at hl
      rcases hl with rfl | rfl
      · exact strNoNlCr_append (strNoNlCr_of_all _ (by decide))
          (strNoNlCr_append (keyRepr_no_nl_cr k)
            (strNoNlCr_of_all _ (by decide)))
      · exact strNoNlCr_append (strNoNlCr_of_all _ (by decide))
          (intToChars_no_nl_cr e.last_updated)
    · by_cases he : e.data_folders.isEmpty
      · rw [if_pos he] at hl
        simp only [List.mem_singleton] at hl
        subst hl
        exact strNoNlCr_of_all _ (by decide)
      · rw [if_neg he] at hl
        cases hl
  · obtain ⟨f, _, hf⟩ := List.mem_flatMap.mp hl
    exact printFolder_lines k f l hf

/-- All printed snapshot lines satisfy the `rustLines` round-trip
conditions. -/
theorem printServersTomlLines_ok (cache : ServersCache) :
    ∀ l ∈ printServersTomlLines cache, '\n' ∉ l ∧ l.getLast? ≠ some '\r' := by
  intro l hl
  have hno : strNoNlCr l := by
    unfold printServersTomlLines at hl
    cases hc : cache.servers with
    | nil =>
      rw [hc] at hl
      simp only [List.mem_singleton] at hl
      subst hl
      exact strNoNlCr_of_all _ (by decide)
    | cons kv rest =>
      rw [hc] at hl
      obtain ⟨p, _, hp⟩ := List.mem_flatMap.mp hl
      exact printEntry_lines p.1 p.2 l hp
  constructor
  · intro h
    exact (hno '\n' h).1 rfl
  · intro h
    exact (hno '\r' (List.mem_of_mem_getLast? h)).2 rfl

/-- Specification of `closeFolder`: key, time and seen-flag are preserved
and the result has no open item. -/
theorem closeFolder_spec (eb ebC : EntryBuild) (h : closeFolder eb = some ebC) :
    ebC.key = eb.key ∧ ebC.time = eb.time ∧ ebC.foldersSeen = eb.foldersSeen ∧
    ebC.openFolder = none := by
  unfold closeFolder at h
  cases ho : eb.openFolder with
  | none =>
    rw [ho] at h
    simp only [Option.some.injEq] at h
    subst h
    exact ⟨rfl, rfl, rfl, ho⟩
  | some pc =>
    obtain ⟨p, c⟩ := pc
    cases p with
    | none => rw [ho] at h; cases h
    | some pv =>
      rw [ho] at h
      simp only [Option.some.injEq] at h
      subst h
      exact ⟨rfl, rfl, rfl, rfl⟩

/-! ## Evaluation of `processLine` on the printed line shapes -/

theorem processLine_folderHeader (st : TomlSt) (Y : Str) :
    processLine st ("[[servers.".data ++ Y) =
      match parseKeyRepr ".data_folders]]".data Y with
      | none => none
      | some k =>
        match st.cur with
        | none => none
        | some eb =>
          if eb.key = k then
            match closeFolder eb with
            | none => none
            | some eb2 =>
              some ⟨st.finished,
                some ⟨eb2.key, eb2.time, true, eb2.folders, some (none, none)⟩⟩
          else none := rfl

theorem processLine_entryHeader (st : TomlSt) (Y : Str) :
    processLine st ("[servers.".data ++ Y) =
      match parseKeyRepr "]".data Y with
      | none => none
      | some k =>
        match closeEntry st.cur with
        | none => none
        | some closed => some ⟨st.finished ++ closed, some (newEntry k)⟩ := rfl

theorem processLine_lastUpdated (st : TomlSt) (Y : Str) :
    processLine st ("last_updated = ".data ++ Y) =
      match st.cur with
      | none => none
      | some eb =>
        match eb.openFolder, eb.time with
        | none, none =>
          match parseInt Y with
          | none => none
          | some t =>
            some ⟨st.finished,
              some ⟨eb.key, some t, eb.foldersSeen, eb.folders, none⟩⟩
        | _, _ => none := rfl

theorem processLine_inlineFolders (st : TomlSt) :
    processLine st "data_folders = []".data =
      match st.cur with
      | none => none
      | some eb =>
        match eb.openFolder, eb.foldersSeen with
        | none, false =>
          some ⟨st.finished, some ⟨eb.key, eb.time, true, eb.folders, none⟩⟩
        | _, _ => none := rfl

theorem processLine_path (st : TomlSt) (Y : Str) :
    processLine st ("path = ".data ++ Y) =
      match st.cur with
      | none => none
      | some eb =>
        match eb.openFolder with
        | some (none, c) =>
          match parseQuoted Y with
          | none => none
          | some p =>
            some ⟨st.finished,
              some ⟨eb.key, eb.time, eb.foldersSeen, eb.folders,
                some (some p, c)⟩⟩
        | _ => none := rfl

theorem processLine_container (st : TomlSt) (Y : Str) :
    processLine st ("container = ".data ++ Y) =
      match st.cur with
      | none => none
      | some eb =>
        match eb.openFolder with
        | some (p, none) =>
          match parseQuoted Y with
          | none => none
          | some c =>
            some ⟨st.finished,
              some ⟨eb.key, eb.time, eb.foldersSeen, eb.folders,
                some (p, some c)⟩⟩
        | _ => none := rfl

theorem tomlFold_append (st : TomlSt) (l1 l2 : List Str) :
    tomlFold st (l1 ++ l2) =
      match tomlFold st l1 with
      | none => none
      | some st2 => tomlFold st2 l2 := by
  induction l1 generalizing st with
  | nil => rfl
  | cons l ls ih =>
    show tomlFold st (l :: (ls ++ l2)) = _
    simp only [tomlFold]
    cases processLine st l with
    | none => rfl
    | some st2 => exact ih st2

theorem tomlFold_cons_some (st st2 : TomlSt) (l : Str) (rest : List Str)
    (h : processLine st l = some st2) :
    tomlFold st (l :: rest) = tomlFold st2 rest := by
  simp only [tomlFold]
  rw [h]

/-- One printed `[[...]]` item advances the open-section state by opening
(and filling) one folder item. -/
theorem tomlFold_printFolder (k : Str) (f : DataFolder)
    (fin : List (Str × ServerEntry)) (eb ebC : EntryBuild)
    (hkey : eb.key = k) (hclose : closeFolder eb = some ebC) :
    tomlFold ⟨fin, some eb⟩ (printFolder k f) =
      some ⟨fin, some ⟨ebC.key, ebC.time, true, ebC.folders,
        some (some f.path, f.container)⟩⟩ := by
  have hkr : parseKeyRepr ".data_folders]]".data
      (keyRepr k ++ ".data_folders]]".data) = some k :=
    parseKeyRepr_keyRepr k _ '.' _ rfl (by decide)
  have h1 : processLine ⟨fin, some eb⟩
      ("[[servers.".data ++ (keyRepr k ++ ".data_folders]]".data)) =
      some ⟨fin, some ⟨ebC.key, ebC.time, true, ebC.folders,
        some (none, none)⟩⟩ := by
    rw [processLine_folderHeader, hkr]
    show (if eb.key = k then
            match closeFolder eb with
            | none => none
            | some eb2 =>
              some (⟨fin, some ⟨eb2.key, eb2.time, true, eb2.folders,
                some (none, none)⟩⟩ : TomlSt)
          else none) = _
    rw [if_pos hkey, hclose]
  have h2 : processLine
      ⟨fin, some ⟨ebC.key, ebC.time, true, ebC.folders, some (none, none)⟩⟩
      ("path = ".data ++ quoteStr f.path) =
      some ⟨fin, some ⟨ebC.key, ebC.time, true, ebC.folders,
        some (some f.path, none)⟩⟩ := by
    rw [processLine_path]
    show (match parseQuoted (quoteStr f.path) with
          | none => none
          | some p =>
            some (⟨fin, some ⟨ebC.key, ebC.time, true, ebC.folders,
              some (some p, none)⟩⟩ : TomlSt)) = _
    rw [parseQuoted_quoteStr]
  cases hcf : f.container with
  | none =>
    rw [show printFolder k f =
        [("[[servers.".data ++ (keyRepr k ++ ".data_folders]]".data)),
         ("path = ".data ++ quoteStr f.path)] from by
      unfold printFolder
      rw [hcf]
      rfl]
    rw [tomlFold_cons_some _ _ _ _ h1, tomlFold_cons_some _ _ _ _ h2]
    rfl
  | some c =>
    rw [show printFolder k f =
        [("[[servers.".data ++ (keyRepr k ++ ".data_folders]]".data)),
         ("path = ".data ++ quoteStr f.path),
         ("container = ".data ++ quoteStr c)] from by
      unfold printFolder
      rw [hcf]
      rfl]
    have h3 : processLine
        ⟨fin, some ⟨ebC.key, ebC.time, true, ebC.folders,
          some (some f.path, none)⟩⟩
        ("container = ".data ++ quoteStr c) =
        some ⟨fin, some ⟨ebC.key, ebC.time, true, ebC.folders,
          some (some f.path, some c)⟩⟩ := by
      rw [processLine_container]
      show (match parseQuoted (quoteStr c) with
            | none => none
            | some c2 =>
              some (⟨fin, some ⟨ebC.key, ebC.time, true, ebC.folders,
                some (some f.path, some c2)⟩⟩ : TomlSt)) = _
      rw [parseQuoted_quoteStr]
    rw [tomlFold_cons_some _ _ _ _ h1, tomlFold_cons_some _ _ _ _ h2,
      tomlFold_cons_some _ _ _ _ h3]
    rfl

/-- A run of printed `[[...]]` items appends exactly those folders. -/
theorem tomlFold_folders (k : Str) (fin : List (Str × ServerEntry)) :
    ∀ (fs : List DataFolder) (eb ebC : EntryBuild),
      eb.key = k → closeFolder eb = some ebC →
      ∃ eb2 : EntryBuild,
        tomlFold ⟨fin, some eb⟩ (fs.flatMap (printFolder k)) =
          some ⟨fin, some eb2⟩ ∧
        closeFolder eb2 =
          some ⟨k, ebC.time, (ebC.foldersSeen || !fs.isEmpty),
            ebC.folders ++ fs, none⟩ := by
  intro fs
  induction fs with
  | nil =>
    intro eb ebC hkey hclose
    refine ⟨eb, rfl, ?_⟩
    rw [hclose]
    obtain ⟨hk, _, _, ho⟩ := closeFolder_spec eb ebC hclose
    obtain ⟨ck, ct, cs, cf, co⟩ := ebC
    simp only at hk ho
    simp [hk, ho, hkey]
  | cons f fs ih =>
    intro eb ebC hkey hclose
    rw [show (f :: fs).flatMap (printFolder k) =
        printFolder k f ++ fs.flatMap (printFolder k) from rfl]
    rw [tomlFold_append, tomlFold_printFolder k f fin eb ebC hkey hclose]
    obtain ⟨hk, _, _, _⟩ := closeFolder_spec eb ebC hclose
    have hkey1 : (⟨ebC.key, ebC.time, true, ebC.folders,
        some (some f.path, f.container)⟩ : EntryBuild).key = k := by
      show ebC.key = k
      rw [hk, hkey]
    have hclose1 : closeFolder ⟨ebC.key, ebC.time, true, ebC.folders,
        some (some f.path, f.container)⟩ =
        some ⟨ebC.key, ebC.time, true, ebC.folders ++ [f], none⟩ := rfl
    obtain ⟨eb2, he, hc⟩ := ih _ _ hkey1 hclose1
    refine ⟨eb2, he, ?_⟩
    rw [hc]
    simp

/-- One printed `[servers.<key>]` section closes the previous section and
leaves an open state that closes to exactly `(k, e)`. -/
theorem tomlFold_printEntry (k : Str) (e : ServerEntry)
    (fin closed : List (Str × ServerEntry)) (cur : Option EntryBuild)
    (hclosed : closeEntry cur = some closed) :
    ∃ eb, tomlFold ⟨fin, cur⟩ (printEntry k e) =
        some ⟨fin ++ closed, some eb⟩ ∧
      closeEntry (some eb) = some [(k, e)] := by
  have hkr : parseKeyRepr "]".data (keyRepr k ++ "]".data) = some k :=
    parseKeyRepr_keyRepr k _ ']' _ rfl (by decide)
  have h1 : processLine ⟨fin, cur⟩
      ("[servers.".data ++ (keyRepr k ++ "]".data)) =
      some ⟨fin ++ closed, some (newEntry k)⟩ := by
    rw [processLine_entryHeader, hkr]
    show (match closeEntry cur with
          | none => none
          | some cl => some (⟨fin ++ cl, some (newEntry k)⟩ : TomlSt)) = _
    rw [hclosed]
  have h2 : processLine ⟨fin ++ closed, some (newEntry k)⟩
      ("last_updated = ".data ++ intToChars e.last_updated) =
      some ⟨fin ++ closed, some ⟨k, some e.last_updated, false, [], none⟩⟩ := by
    rw [processLine_lastUpdated]
    show (match parseInt (intToChars e.last_updated) with
          | none => none
          | some t =>
            some (⟨fin ++ closed, some ⟨k, some t, false, [], none⟩⟩ :
              TomlSt)) = _
    rw [parseInt_intToChars]
  cases he : e.data_folders with
  | nil =>
    rw [show printEntry k e =
        [("[servers.".data ++ (keyRepr k ++ "]".data)),
         ("last_updated = ".data ++ intToChars e.last_updated),
         "data_folders = []".data] from by
      unfold printEntry
      rw [he]
      rfl]
    refine ⟨⟨k, some e.last_updated, true, [], none⟩, ?_, ?_⟩
    · rw [tomlFold_cons_some _ _ _ _ h1, tomlFold_cons_some _ _ _ _ h2,
        tomlFold_cons_some _ _ _ _ (by rw [processLine_inlineFolders])]
      rfl
    · show some [(k, (⟨e.last_updated, []⟩ : ServerEntry))] = some [(k, e)]
      rw [show (⟨e.last_updated, []⟩ : ServerEntry) = e from by rw [← he]]
  | cons f fs =>
    rw [show printEntry k e =
        [("[servers.".data ++ (keyRepr k ++ "]".data)),
         ("last_updated = ".data ++ intToChars e.last_updated)] ++
          (f :: fs).flatMap (printFolder k) from by
      unfold printEntry
      rw [he]
      rfl]
    rw [tomlFold_append]
    rw [show tomlFold ⟨fin, cur⟩
        [("[servers.".data ++ (keyRepr k ++ "]".data)),
         ("last_updated = ".data ++ intToChars e.last_updated)] =
        some ⟨fin ++ closed, some ⟨k, some e.last_updated, false, [], none⟩⟩
      from by
        rw [tomlFold_cons_some _ _ _ _ h1, tomlFold_cons_some _ _ _ _ h2]
        rfl]
    obtain ⟨eb2, hfold, hcl⟩ := tomlFold_folders k (fin ++ closed) (f :: fs)
      ⟨k, some e.last_updated, false, [], none⟩
      ⟨k, some e.last_updated, false, [], none⟩ rfl rfl
    refine ⟨eb2, hfold, ?_⟩
    show (match closeFolder eb2 with
          | none => none
          | some eb3 =>
            match eb3.time with
            | none => none
            | some t =>
              if eb3.foldersSeen then some [(eb3.key, ⟨t, eb3.folders⟩)]
              else none) = some [(k, e)]
    rw [hcl]
    show (if (false || !(f :: fs).isEmpty) = true then
            some [(k, (⟨e.last_updated, [] ++ (f :: fs)⟩ : ServerEntry))]
          else none) = some [(k, e)]
    rw [if_pos (by simp)]
    rw [show (⟨e.last_updated, [] ++ (f :: fs)⟩ : ServerEntry) = e from by
      rw [List.nil_append, ← he]]

/-- Parsing the printed sections recovers exactly the printed entries. -/
theorem parse_print_entries :
    ∀ (entries : List (Str × ServerEntry))
      (fin closed : List (Str × ServerEntry)) (cur : Option EntryBuild),
      closeEntry cur = some closed →
      runParse ⟨fin, cur⟩ (entries.flatMap fun kv => printEntry kv.1 kv.2) =
        some (fin ++ closed ++ entries) := by
  intro entries
  induction entries with
  | nil =>
    intro fin closed cur hc
    show (closeEntry cur).map (fun cl => fin ++ cl) = some (fin ++ closed ++ [])
    rw [hc]
    simp
  | cons kv rest ih =>
    intro fin closed cur hc
    obtain ⟨eb, he, hcl⟩ := tomlFold_printEntry kv.1 kv.2 fin closed cur hc
    rw [show ((kv :: rest).flatMap fun kv => printEntry kv.1 kv.2) =
        printEntry kv.1 kv.2 ++ (rest.flatMap fun kv => printEntry kv.1 kv.2)
      from rfl]
    unfold runParse
    rw [tomlFold_append, he]
    have hrec := ih (fin ++ closed) [(kv.1, kv.2)] (some eb) hcl
    unfold runParse at hrec
    refine hrec.trans ?_
    simp

/-- `toml::from_str` as composed in `parseServersToml`, in terms of
`runParse`. -/
theorem parseServersToml_eq (contents : Str) :
    parseServersToml contents =
      (runParse ⟨[], none⟩ (rustLines contents)).map ServersCache.mk := by
  unfold parseServersToml runParse
  cases tomlFold ⟨[], none⟩ (rustLines contents) with
  | none => rfl
  | some st =>
    show (match closeEntry st.cur with
          | none => none
          | some closed => some (⟨st.finished ++ closed⟩ : ServersCache)) =
      Option.map ServersCache.mk
        ((closeEntry st.cur).map fun cl => st.finished ++ cl)
    cases closeEntry st.cur with
    | none => rfl
    | some cl => rfl

/-! ## Claim C3 -/

/--
C3: for every `ServersCache` value — any number of hosts (the association
list sorted by key, as a `BTreeMap` guarantees), each with any number of
data folders, container fields present or absent — writing the snapshot
(`write_servers_cache`, i.e. `toml::to_string_pretty` plus the atomic file
replace) and loading it back (`load_servers_cache`, i.e. `toml::from_str`
with the empty-cache fallback) returns a store equal to the original.
-/
theorem C3_save_load_roundtrip (cache : ServersCache)
    ( _hsorted : sortedByKey cache.servers) :
    loadServersCacheFromContents (some (writeServersCacheContents cache)) =
      cache := by
  have hlines : rustLines (writeServersCacheContents cache) =
      printServersTomlLines cache :=
    rustLines_joinNl _ (printServersTomlLines_ok cache)
  show (match parseServersToml (writeServersCacheContents cache) with
        | some c => c
        | none => (⟨[]⟩ : ServersCache)) = cache
  rw [parseServersToml_eq, hlines]
  cases hc : cache.servers with
  | nil =>
    rw [show printServersTomlLines cache = ["[servers]".data] from by
      unfold printServersTomlLines
      rw [hc]]
    show (⟨[]⟩ : ServersCache) = cache
    rw [← hc]
  | cons kv rest =>
    rw [show printServersTomlLines cache =
        ((kv :: rest).flatMap fun p => printEntry p.1 p.2) from by
      unfold printServersTomlLines
      rw [hc]]
    rw [parse_print_entries (kv :: rest) [] [] none rfl]
    show ServersCache.mk ([] ++ [] ++ (kv :: rest)) = cache
    rw [List.nil_append, List.nil_append, ← hc]

/--
C3 witness: a two-host store exercising quoted keys, escapes, an empty
folder list, and present/absent container fields.
-/
theorem C3_save_load_roundtrip_witness :
    loadServersCacheFromContents (some (writeServersCacheContents
      ⟨[("h 1".data, ⟨1234, [⟨"a\"b\n".data, some "c".data⟩,
          ⟨"".data, none⟩]⟩),
        ("z".data, ⟨-7, []⟩)]⟩)) =
      ⟨[("h 1".data, ⟨1234, [⟨"a\"b\n".data, some "c".data⟩,
          ⟨"".data, none⟩]⟩),
        ("z".data, ⟨-7, []⟩)]⟩ :=
  C3_save_load_roundtrip
    ⟨[("h 1".data, ⟨1234, [⟨"a\"b\n".data, some "c".data⟩,
        ⟨"".data, none⟩]⟩),
      ("z".data, ⟨-7, []⟩)]⟩
    (by refine List.chain'_cons.mpr ⟨by decide, ?_⟩
        exact List.chain'_singleton _)

